import Mathlib

/-!
Verification development for the printloop G-code transformation engine.

The engine's lines are modelled as lists of characters (`Line`), a file as a
list of lines.  Go `float64` values are modelled as exact rationals (`ℚ`):
every numeric literal the G-code parser accepts is a decimal literal, so the
embedding is exact; ordering comparisons agree with the Go ones on all inputs
appearing here.  Go byte indices coincide with character indices on ASCII
input, which is the domain of G-code files.

Sources embedded (current revision of each file):
  internal/processor/processor.go        (parser, extractor, streaming writer,
                                          validation, orchestration)
  internal/processor/strategy/common.go  (sliding-window marker search)
  internal/processor/strategy/after-first.go
  internal/processor/strategy/before-first.go
Parts of the specified behaviour that are not present in the source tree
(assertion checking, average/min/max aggregation) are modelled from the spec
and marked as such in their doc comments.
-/

/-- A single text line, modelled as its list of characters. -/
abbrev Line := List Char

/-- ASCII whitespace, the character class trimmed by Go's
`strings.TrimSpace` on ASCII input. -/
def isSpaceChar (c : Char) : Bool :=
  c = ' ' || c = '\t' || c = '\n' || c = Char.ofNat 11 || c = Char.ofNat 12 || c = '\r'

/-- Model of `strings.TrimSpace`: drop leading and trailing whitespace. -/
def trimSpace (l : Line) : Line :=
  ((l.dropWhile isSpaceChar).reverse.dropWhile isSpaceChar).reverse

/-- Sequence-prefix test: does `l` start with `pre`? -/
def startsWithSeq : Line → Line → Bool
  | [], _ => true
  | _ :: _, [] => false
  | p :: ps, c :: cs => p = c && startsWithSeq ps cs

/-- Model of `strings.Contains hay needle`. -/
def containsSub : Line → Line → Bool
  | hay, needle =>
    match hay with
    | [] => needle.isEmpty
    | _ :: t => startsWithSeq needle hay || containsSub t needle

/-- Model of `strings.HasPrefix`. -/
def hasPrefixSeq (l pre : Line) : Bool := startsWithSeq pre l

/-- `common.go` / `processor.go`: a line is skippable during multiline marker
matching iff, trimmed, it is empty or begins with `;`. -/
def skippableLine (l : Line) : Bool :=
  trimSpace l = ([] : Line) || hasPrefixSeq (trimSpace l) [';']

/-- The containment test used by every marker search:
`strings.Contains(strings.TrimSpace(line), strings.TrimSpace(marker))`. -/
def containsTM (l m : Line) : Bool := containsSub (trimSpace l) (trimSpace m)

/-! ### G-code coordinate parsing (`parseGCodeLine`, processor.go 461-510) -/

/-- Numeric value of a digit list, most significant first. -/
def digitsToNat (ds : List Char) : Nat :=
  ds.foldl (fun acc c => 10 * acc + (c.toNat - '0'.toNat)) 0

/-- Match of the regex fragment `[-+]?\d*\.?\d+` at the head of `cs`
(value of the leftmost-longest match, per Go regexp backtracking):
an optional sign, then either `digits[.digits]` or `.digits`, where a
trailing lone dot is not consumed.  The exact decimal value is produced
through `mkRat` over integer arithmetic so that it evaluates by kernel
reduction. -/
def parseDecimal (cs : List Char) : Option ℚ :=
  let signVal : Int × List Char :=
    match cs with
    | '-' :: t => (-1, t)
    | '+' :: t => (1, t)
    | _ => (1, cs)
  let sign := signVal.1
  let cs1 := signVal.2
  let d1 := cs1.takeWhile Char.isDigit
  let rest1 := cs1.dropWhile Char.isDigit
  match rest1 with
  | '.' :: rest2 =>
    let d2 := rest2.takeWhile Char.isDigit
    if d2 ≠ [] then
      some (mkRat (sign * ((digitsToNat d1 * 10 ^ d2.length + digitsToNat d2 : Nat) : Int))
        (10 ^ d2.length))
    else if d1 ≠ [] then some (mkRat (sign * (digitsToNat d1 : Int)) 1)
    else none
  | _ =>
    if d1 ≠ [] then some (mkRat (sign * (digitsToNat d1 : Int)) 1) else none

/-- Leftmost match of `c([-+]?\d*\.?\d+)` in `cs`
(Go `regexp.FindStringSubmatch` with the coordinate-letter patterns). -/
def findCoordVal (c : Char) : List Char → Option ℚ
  | [] => none
  | x :: t =>
    if x = c then
      match parseDecimal t with
      | some v => some v
      | none => findCoordVal c t
    else findCoordVal c t

/-- processor.go `GCodeCoordinates`: four independently optional values. -/
structure GCodeCoordinates where
  x : Option ℚ
  y : Option ℚ
  z : Option ℚ
  e : Option ℚ
deriving DecidableEq, Repr

/-- processor.go 461-510 `parseGCodeLine`: trim, require the `G1` head,
extract the four coordinates, return them iff at least one was found. -/
def parseGCodeLine (line : Line) : Option GCodeCoordinates :=
  let trimmed := trimSpace line
  if hasPrefixSeq trimmed ['G', '1'] then
    let coords : GCodeCoordinates :=
      { x := findCoordVal 'X' trimmed
        y := findCoordVal 'Y' trimmed
        z := findCoordVal 'Z' trimmed
        e := findCoordVal 'E' trimmed }
    if coords.x ≠ none || coords.y ≠ none || coords.z ≠ none || coords.e ≠ none then
      some coords
    else none
  else none

example : parseGCodeLine "G1 X10 Y20 E0.1".data =
    some { x := some 10, y := some 20, z := none, e := some (mkRat 1 10) } := by decide
example : parseGCodeLine "  G1 Z3.601".data =
    some { x := none, y := none, z := some (mkRat 3601 1000), e := none } := by decide
example : parseGCodeLine "M104 X5".data = none := by decide
example : parseGCodeLine "G1 X-1.5 E-0.2".data =
    some { x := some (mkRat (-3) 2), y := none, z := none, e := some (mkRat (-1) 5) } := by
  decide
example : containsSub "abcd".data "bc".data = true := by decide
example : containsSub "abcd".data "ca".data = false := by decide
example : trimSpace "  a b ".data = "a b".data := by decide
example : skippableLine "   ; hello".data = true := by decide
example : skippableLine "".data = true := by decide
example : skippableLine "G1".data = false := by decide

/-! ### Coordinate extractor (processor.go 364-458) -/

/-- Search-strategy failure modes (the distinct error messages produced by
the strategy implementations). -/
inductive StratError
  | noMarkersProvided
  | markerNotFound
  | startLineOutOfBounds
  | startMarkerNotFound
  | endMarkerNotFound
deriving DecidableEq, Repr

/-- The transformation's failure modes (the distinct errors produced by
`validateInput`, `findMarkerPositions` and `extractGCodeCoordinates`). -/
inductive ProcError
  | endInitSectionMarkerEmpty
  | endPrintSectionMarkerEmpty
  | iterationsNotPositive
  | markerConflict (s e : Line)
  | searchFailed (e : StratError)
  | invalidMarkerOrder
  | noPrintCommandsFound (afterLine : Int)
deriving DecidableEq, Repr

/-- Scanner state of `extractGCodeCoordinates` (processor.go 373-377). -/
structure ExtractState where
  firstPrintX : Option ℚ
  firstPrintY : Option ℚ
  firstPrintZ : Option ℚ
  lastPrintX : Option ℚ
  lastPrintY : Option ℚ
  lastPrintZ : Option ℚ
  currentZ : Option ℚ
  firstPrintFound : Bool
deriving DecidableEq, Repr

def initExtractState : ExtractState :=
  ⟨none, none, none, none, none, none, none, false⟩

/-- `if new != nil { field = new }` on optional values. -/
def updOpt (new old : Option ℚ) : Option ℚ :=
  match new with
  | some v => some v
  | none => old

/-- One line of the extractor scan (processor.go 379-423): update the active
Z from any parsed `G1` line, then, for a print command (`E` present and
positive, `X` or `Y` present), record the first-print coordinates once a
line past `endInitSectionLastLine` is seen and always update the last-print
coordinates. -/
def extractStep (endInitSectionLastLine : Int) (lineNum : Int) (st : ExtractState)
    (line : Line) : ExtractState :=
  match parseGCodeLine line with
  | none => st
  | some coords =>
    let st1 := { st with currentZ := updOpt coords.z st.currentZ }
    let isPrintCmd : Bool :=
      (match coords.e with
        | some e => decide (0 < e)
        | none => false) && (coords.x ≠ none || coords.y ≠ none)
    if isPrintCmd then
      let st2 :=
        if !st1.firstPrintFound && decide (endInitSectionLastLine < lineNum) then
          { st1 with
            firstPrintX := updOpt coords.x st1.firstPrintX
            firstPrintY := updOpt coords.y st1.firstPrintY
            firstPrintZ := updOpt st1.currentZ st1.firstPrintZ
            firstPrintFound := true }
        else st1
      { st2 with
        lastPrintX := updOpt coords.x st2.lastPrintX
        lastPrintY := updOpt coords.y st2.lastPrintY
        lastPrintZ := updOpt st2.currentZ st2.lastPrintZ }
    else st1

/-- The extractor's scanner loop over the file lines. -/
def extractLoop (endInitSectionLastLine : Int) : List Line → Int → ExtractState → ExtractState
  | [], _, st => st
  | l :: rest, n, st =>
    extractLoop endInitSectionLastLine rest (n + 1) (extractStep endInitSectionLastLine n st l)

/-- The six values returned by `extractGCodeCoordinates`. -/
structure ExtractResult where
  firstPrintX : ℚ
  firstPrintY : ℚ
  firstPrintZ : ℚ
  lastPrintX : ℚ
  lastPrintY : ℚ
  lastPrintZ : ℚ
deriving DecidableEq, Repr

/-- processor.go 364-458 `extractGCodeCoordinates`: scan the file, default
unobserved coordinates to zero, and fail with `noPrintCommandsFound` when no
print command appeared after the init section - unless the requested printer
name contains `unit-tests`. -/
def extractGCodeCoordinates (lines : List Line) (endInitSectionLastLine : Int)
    (printerName : Line) : Except ProcError ExtractResult :=
  let st := extractLoop endInitSectionLastLine lines 0 initExtractState
  let r : ExtractResult :=
    ⟨st.firstPrintX.getD 0, st.firstPrintY.getD 0, st.firstPrintZ.getD 0,
      st.lastPrintX.getD 0, st.lastPrintY.getD 0, st.lastPrintZ.getD 0⟩
  if !containsSub printerName "unit-tests".data then
    if !st.firstPrintFound then
      .error (.noPrintCommandsFound endInitSectionLastLine)
    else .ok r
  else .ok r

/-! ### Declarative description of the extractor scan -/

/-- The Z carried by a line, when the line parses as a `G1` command. -/
def lineZ (l : Line) : Option ℚ :=
  match parseGCodeLine l with
  | some c => c.z
  | none => none

/-- The X carried by a line, when the line parses as a `G1` command. -/
def lineX (l : Line) : Option ℚ :=
  match parseGCodeLine l with
  | some c => c.x
  | none => none

/-- The Y carried by a line, when the line parses as a `G1` command. -/
def lineY (l : Line) : Option ℚ :=
  match parseGCodeLine l with
  | some c => c.y
  | none => none

/-- The most recent Z value seen on any `G1` line of the list (the spec's
"active Z" at the end of the list). -/
def activeZ (pre : List Line) : Option ℚ :=
  pre.foldl (fun acc l =>
    match lineZ l with
    | some z => some z
    | none => acc) none

/-- A qualifying print move: parses as `G1`, has a strictly positive `E`,
and carries an `X` or a `Y`. -/
def qualifies (l : Line) : Bool :=
  match parseGCodeLine l with
  | some c =>
    (match c.e with
      | some e => decide (0 < e)
      | none => false) && (c.x ≠ none || c.y ≠ none)
  | none => false

/-- Index (0-based, counting from `n`) of the first qualifying print move
at a line number strictly past `endInit`. -/
def firstQualIdxAux (endInit : Int) : List Line → Nat → Option Nat
  | [], _ => none
  | l :: rest, n =>
    if decide (endInit < (n : Int)) && qualifies l then some n
    else firstQualIdxAux endInit rest (n + 1)

def firstQualIdx (lines : List Line) (endInit : Int) : Option Nat :=
  firstQualIdxAux endInit lines 0

/-- Index of the last qualifying print move anywhere in the list. -/
def lastQualIdxAux : List Line → Nat → Option Nat
  | [], _ => none
  | l :: rest, n =>
    match lastQualIdxAux rest (n + 1) with
    | some k => some k
    | none => if qualifies l then some n else none

def lastQualIdx (lines : List Line) : Option Nat :=
  lastQualIdxAux lines 0

/-- The value `proj` of the last qualifying move that carries it. -/
def lastQualCoord (proj : Line → Option ℚ) (lines : List Line) : Option ℚ :=
  lines.foldl (fun acc l =>
    if qualifies l then updOpt (proj l) acc else acc) none

/-- Declarative value of the extractor state after scanning `pre`. -/
def specExtractState (endInit : Int) (pre : List Line) : ExtractState where
  firstPrintX := (firstQualIdx pre endInit).bind fun k => lineX (pre.getD k [])
  firstPrintY := (firstQualIdx pre endInit).bind fun k => lineY (pre.getD k [])
  firstPrintZ := (firstQualIdx pre endInit).bind fun k => activeZ (pre.take (k + 1))
  lastPrintX := lastQualCoord lineX pre
  lastPrintY := lastQualCoord lineY pre
  lastPrintZ := (lastQualIdx pre).bind fun k => activeZ (pre.take (k + 1))
  currentZ := activeZ pre
  firstPrintFound := (firstQualIdx pre endInit).isSome

theorem updOpt_none (a : Option ℚ) : updOpt a none = a := by
  cases a <;> rfl

theorem extractLoop_append (e : Int) (xs : List Line) (x : Line) (n : Int) (st : ExtractState) :
    extractLoop e (xs ++ [x]) n st = extractStep e (n + xs.length) (extractLoop e xs n st) x := by
  induction xs generalizing n st with
  | nil => simp [extractLoop]
  | cons a t ih =>
    simp only [List.cons_append, extractLoop, List.length_cons, List.append_eq]
    rw [ih]
    congr 1
    push_cast
    ring

theorem activeZ_append (xs : List Line) (l : Line) :
    activeZ (xs ++ [l]) = updOpt (lineZ l) (activeZ xs) := by
  simp only [activeZ, List.foldl_append, List.foldl_cons, List.foldl_nil]
  cases lineZ l <;> rfl

theorem activeZ_eq_none_iff (xs : List Line) :
    activeZ xs = none ↔ ∀ l ∈ xs, lineZ l = none := by
  have aux : ∀ (ys : List Line) (acc : Option ℚ),
      ys.foldl (fun acc l => match lineZ l with | some z => some z | none => acc) acc = none ↔
        acc = none ∧ ∀ l ∈ ys, lineZ l = none := by
    intro ys
    induction ys with
    | nil => simp
    | cons a t ih =>
      intro acc
      simp only [List.foldl_cons, List.mem_cons]
      cases h : lineZ a with
      | some z =>
        rw [ih]
        constructor
        · rintro ⟨hz, _⟩; exact absurd hz (by simp)
        · rintro ⟨_, hall⟩; exact absurd (hall a (Or.inl rfl)) (by simp [h])
      | none =>
        rw [ih]
        constructor
        · rintro ⟨hz, hall⟩
          exact ⟨hz, fun l hl => hl.elim (fun hh => hh ▸ h) (hall l)⟩
        · rintro ⟨hz, hall⟩
          exact ⟨hz, fun l hl => hall l (Or.inr hl)⟩
  simpa using aux xs none

theorem activeZ_take_of_eq_none (xs : List Line) (hz : activeZ xs = none) (n : Nat) :
    activeZ (xs.take n) = none := by
  rw [activeZ_eq_none_iff] at hz ⊢
  exact fun l hl => hz l (List.mem_of_mem_take hl)

theorem firstQualIdxAux_append (e : Int) (xs : List Line) (l : Line) (n : Nat) :
    firstQualIdxAux e (xs ++ [l]) n =
      match firstQualIdxAux e xs n with
      | some k => some k
      | none =>
        if decide (e < ((n + xs.length : Nat) : Int)) && qualifies l then
          some (n + xs.length)
        else none := by
  induction xs generalizing n with
  | nil => simp [firstQualIdxAux]
  | cons a t ih =>
    simp only [List.cons_append, firstQualIdxAux, List.length_cons, List.append_eq]
    cases h : (decide (e < (n : Int)) && qualifies a) with
    | true => simp
    | false =>
      simp only [Bool.false_eq_true, if_false]
      rw [ih]
      have h3 : n + 1 + t.length = n + (t.length + 1) := by omega
      rw [h3]

theorem firstQualIdxAux_bound (e : Int) (xs : List Line) (n k : Nat)
    (h : firstQualIdxAux e xs n = some k) : n ≤ k ∧ k < n + xs.length := by
  induction xs generalizing n with
  | nil => simp [firstQualIdxAux] at h
  | cons a t ih =>
    simp only [firstQualIdxAux] at h
    split at h
    · cases h; simp
    · have := ih (n + 1) h
      exact ⟨by omega, by simp only [List.length_cons]; omega⟩

theorem lastQualIdxAux_append (xs : List Line) (l : Line) (n : Nat) :
    lastQualIdxAux (xs ++ [l]) n =
      if qualifies l then some (n + xs.length) else lastQualIdxAux xs n := by
  induction xs generalizing n with
  | nil =>
    cases hq : qualifies l with
    | true => simp [lastQualIdxAux, hq]
    | false => simp [lastQualIdxAux, hq]
  | cons a t ih =>
    show (match lastQualIdxAux (t ++ [l]) (n + 1) with
          | some k => some k
          | none => if qualifies a then some n else none) = _
    rw [ih]
    cases hq : qualifies l with
    | true =>
      simp only [hq, if_true, List.length_cons]
      have h3 : n + 1 + t.length = n + (t.length + 1) := by omega
      rw [h3]
    | false =>
      simp only [hq, Bool.false_eq_true, if_false]
      rfl

theorem lastQualIdxAux_bound (xs : List Line) (n k : Nat)
    (h : lastQualIdxAux xs n = some k) : n ≤ k ∧ k < n + xs.length := by
  induction xs generalizing n with
  | nil => simp [lastQualIdxAux] at h
  | cons a t ih =>
    simp only [lastQualIdxAux] at h
    split at h
    · rename_i k' hk'
      cases h
      have := ih (n + 1) hk'
      exact ⟨by omega, by simp only [List.length_cons]; omega⟩
    · split at h
      · cases h; simp
      · cases h

theorem lastQualCoord_append (p : Line → Option ℚ) (xs : List Line) (l : Line) :
    lastQualCoord p (xs ++ [l]) =
      if qualifies l then updOpt (p l) (lastQualCoord p xs) else lastQualCoord p xs := by
  simp only [lastQualCoord, List.foldl_append, List.foldl_cons, List.foldl_nil]

theorem updOpt_eq_none_iff (a b : Option ℚ) : updOpt a b = none ↔ a = none ∧ b = none := by
  cases a <;> simp [updOpt]

theorem take_append_left {α : Type} (xs ys : List α) (n : Nat) (h : n ≤ xs.length) :
    (xs ++ ys).take n = xs.take n := by
  rw [List.take_append_eq_append_take]
  simp [Nat.sub_eq_zero_of_le h]

theorem take_append_full {α : Type} (xs : List α) (y : α) :
    (xs ++ [y]).take (xs.length + 1) = xs ++ [y] := by
  have : xs.length + 1 = (xs ++ [y]).length := by simp
  rw [this, List.take_length]

theorem getD_append_left {α : Type} (ys : List α) (d : α) :
    ∀ (xs : List α) (k : Nat), k < xs.length → (xs ++ ys).getD k d = xs.getD k d
  | [], k, h => absurd h (by simp)
  | _ :: _, 0, _ => rfl
  | _ :: t, k + 1, h => getD_append_left ys d t k (by simpa using h)

theorem getD_append_self {α : Type} (y : α) (d : α) :
    ∀ xs : List α, (xs ++ [y]).getD xs.length d = y
  | [] => rfl
  | _ :: t => getD_append_self y d t

theorem extractStep_currentZ (e n : Int) (st : ExtractState) (l : Line) :
    (extractStep e n st l).currentZ = updOpt (lineZ l) st.currentZ := by
  cases hp : parseGCodeLine l with
  | none => simp [extractStep, hp, lineZ, updOpt]
  | some c =>
    simp only [extractStep, hp, lineZ]
    split
    · split <;> rfl
    · rfl

theorem extractStep_firstPrintFound (e n : Int) (st : ExtractState) (l : Line) :
    (extractStep e n st l).firstPrintFound =
      (st.firstPrintFound || (qualifies l && decide (e < n))) := by
  cases hp : parseGCodeLine l with
  | none => simp [extractStep, hp, qualifies]
  | some c =>
    simp only [extractStep, hp]
    by_cases hf : st.firstPrintFound <;>
      by_cases hn : e < n <;>
        cases he : (match c.e with | some e => decide (0 < e) | none => false) <;>
          cases hx : c.x <;>
            cases hy : c.y <;>
              simp [qualifies, updOpt, hp, hf, hn, he, hx, hy]

theorem extractStep_firstPrintX (e n : Int) (st : ExtractState) (l : Line) :
    (extractStep e n st l).firstPrintX =
      if qualifies l && !st.firstPrintFound && decide (e < n) then
        updOpt (lineX l) st.firstPrintX
      else st.firstPrintX := by
  cases hp : parseGCodeLine l with
  | none => simp [extractStep, hp, qualifies]
  | some c =>
    simp only [extractStep, hp]
    by_cases hf : st.firstPrintFound <;>
      by_cases hn : e < n <;>
        cases he : (match c.e with | some e => decide (0 < e) | none => false) <;>
          cases hx : c.x <;>
            cases hy : c.y <;>
              simp [qualifies, updOpt, lineX, hp, hf, hn, he, hx, hy]

theorem extractStep_firstPrintY (e n : Int) (st : ExtractState) (l : Line) :
    (extractStep e n st l).firstPrintY =
      if qualifies l && !st.firstPrintFound && decide (e < n) then
        updOpt (lineY l) st.firstPrintY
      else st.firstPrintY := by
  cases hp : parseGCodeLine l with
  | none => simp [extractStep, hp, qualifies]
  | some c =>
    simp only [extractStep, hp]
    by_cases hf : st.firstPrintFound <;>
      by_cases hn : e < n <;>
        cases he : (match c.e with | some e => decide (0 < e) | none => false) <;>
          cases hx : c.x <;>
            cases hy : c.y <;>
              simp [qualifies, updOpt, lineY, hp, hf, hn, he, hx, hy]

theorem extractStep_firstPrintZ (e n : Int) (st : ExtractState) (l : Line) :
    (extractStep e n st l).firstPrintZ =
      if qualifies l && !st.firstPrintFound && decide (e < n) then
        updOpt (updOpt (lineZ l) st.currentZ) st.firstPrintZ
      else st.firstPrintZ := by
  cases hp : parseGCodeLine l with
  | none => simp [extractStep, hp, qualifies]
  | some c =>
    simp only [extractStep, hp]
    by_cases hf : st.firstPrintFound <;>
      by_cases hn : e < n <;>
        cases he : (match c.e with | some e => decide (0 < e) | none => false) <;>
          cases hx : c.x <;>
            cases hy : c.y <;>
              simp [qualifies, updOpt, lineZ, hp, hf, hn, he, hx, hy]

theorem extractStep_lastPrintX (e n : Int) (st : ExtractState) (l : Line) :
    (extractStep e n st l).lastPrintX =
      if qualifies l then updOpt (lineX l) st.lastPrintX else st.lastPrintX := by
  cases hp : parseGCodeLine l with
  | none => simp [extractStep, hp, qualifies]
  | some c =>
    simp only [extractStep, hp]
    by_cases hf : st.firstPrintFound <;>
      by_cases hn : e < n <;>
        cases he : (match c.e with | some e => decide (0 < e) | none => false) <;>
          cases hx : c.x <;>
            cases hy : c.y <;>
              simp [qualifies, updOpt, lineX, hp, hf, hn, he, hx, hy]

theorem extractStep_lastPrintY (e n : Int) (st : ExtractState) (l : Line) :
    (extractStep e n st l).lastPrintY =
      if qualifies l then updOpt (lineY l) st.lastPrintY else st.lastPrintY := by
  cases hp : parseGCodeLine l with
  | none => simp [extractStep, hp, qualifies]
  | some c =>
    simp only [extractStep, hp]
    by_cases hf : st.firstPrintFound <;>
      by_cases hn : e < n <;>
        cases he : (match c.e with | some e => decide (0 < e) | none => false) <;>
          cases hx : c.x <;>
            cases hy : c.y <;>
              simp [qualifies, updOpt, lineY, hp, hf, hn, he, hx, hy]

theorem extractStep_lastPrintZ (e n : Int) (st : ExtractState) (l : Line) :
    (extractStep e n st l).lastPrintZ =
      if qualifies l then updOpt (updOpt (lineZ l) st.currentZ) st.lastPrintZ
      else st.lastPrintZ := by
  cases hp : parseGCodeLine l with
  | none => simp [extractStep, hp, qualifies]
  | some c =>
    simp only [extractStep, hp]
    by_cases hf : st.firstPrintFound <;>
      by_cases hn : e < n <;>
        cases he : (match c.e with | some e => decide (0 < e) | none => false) <;>
          cases hx : c.x <;>
            cases hy : c.y <;>
              simp [qualifies, updOpt, lineZ, hp, hf, hn, he, hx, hy]

theorem extractState_eq_of_fields {a b : ExtractState}
    (h1 : a.firstPrintX = b.firstPrintX) (h2 : a.firstPrintY = b.firstPrintY)
    (h3 : a.firstPrintZ = b.firstPrintZ) (h4 : a.lastPrintX = b.lastPrintX)
    (h5 : a.lastPrintY = b.lastPrintY) (h6 : a.lastPrintZ = b.lastPrintZ)
    (h7 : a.currentZ = b.currentZ) (h8 : a.firstPrintFound = b.firstPrintFound) :
    a = b := by
  cases a; cases b; simp_all

theorem specExtractState_append (e : Int) (pre : List Line) (l : Line) :
    specExtractState e (pre ++ [l]) =
      extractStep e (pre.length : Int) (specExtractState e pre) l := by
  apply extractState_eq_of_fields
  · -- firstPrintX
    rw [extractStep_firstPrintX]
    simp only [specExtractState, firstQualIdx]
    rw [firstQualIdxAux_append]
    cases hfi : firstQualIdxAux e pre 0 with
    | some k =>
      have hb := (firstQualIdxAux_bound e pre 0 k hfi).2
      simp [List.getElem?_append_left (show k < pre.length by omega)]
    | none =>
      by_cases hql : qualifies l = true <;>
        by_cases hel : e < (pre.length : Int) <;>
          simp [hql, hel, getD_append_self, updOpt_none]
  · -- firstPrintY
    rw [extractStep_firstPrintY]
    simp only [specExtractState, firstQualIdx]
    rw [firstQualIdxAux_append]
    cases hfi : firstQualIdxAux e pre 0 with
    | some k =>
      have hb := (firstQualIdxAux_bound e pre 0 k hfi).2
      simp [List.getElem?_append_left (show k < pre.length by omega)]
    | none =>
      by_cases hql : qualifies l = true <;>
        by_cases hel : e < (pre.length : Int) <;>
          simp [hql, hel, getD_append_self, updOpt_none]
  · -- firstPrintZ
    rw [extractStep_firstPrintZ]
    simp only [specExtractState, firstQualIdx]
    rw [firstQualIdxAux_append]
    cases hfi : firstQualIdxAux e pre 0 with
    | some k =>
      have hb := (firstQualIdxAux_bound e pre 0 k hfi).2
      simp [take_append_left pre [l] (k + 1) (by omega)]
    | none =>
      by_cases hql : qualifies l = true <;>
        by_cases hel : e < (pre.length : Int) <;>
          simp [hql, hel, take_append_full, updOpt_none, activeZ_append]
  · -- lastPrintX
    rw [extractStep_lastPrintX]
    simp only [specExtractState]
    rw [lastQualCoord_append]
  · -- lastPrintY
    rw [extractStep_lastPrintY]
    simp only [specExtractState]
    rw [lastQualCoord_append]
  · -- lastPrintZ
    rw [extractStep_lastPrintZ]
    simp only [specExtractState, lastQualIdx]
    rw [lastQualIdxAux_append]
    by_cases hql : qualifies l = true
    · simp only [hql, if_true, Nat.zero_add, Option.some_bind, take_append_full]
      rw [activeZ_append]
      cases hA : updOpt (lineZ l) (activeZ pre) with
      | some z => simp [updOpt]
      | none =>
        have hpre : activeZ pre = none := ((updOpt_eq_none_iff _ _).1 hA).2
        simp only [updOpt]
        cases hli : lastQualIdxAux pre 0 with
        | some k => simp [activeZ_take_of_eq_none pre hpre]
        | none => simp
    · simp only [hql, Bool.false_eq_true, if_false]
      cases hli : lastQualIdxAux pre 0 with
      | some k =>
        have hb := (lastQualIdxAux_bound pre 0 k hli).2
        simp [take_append_left pre [l] (k + 1) (by omega)]
      | none => simp
  · -- currentZ
    rw [extractStep_currentZ]
    simp only [specExtractState]
    exact activeZ_append pre l
  · -- firstPrintFound
    rw [extractStep_firstPrintFound]
    simp only [specExtractState, firstQualIdx]
    rw [firstQualIdxAux_append]
    cases hfi : firstQualIdxAux e pre 0 with
    | some k => simp
    | none =>
      by_cases hql : qualifies l = true <;>
        by_cases hel : e < (pre.length : Int) <;>
          simp [hql, hel]

theorem extractLoop_characterization (e : Int) (lines : List Line) :
    extractLoop e lines 0 initExtractState = specExtractState e lines := by
  induction lines using List.reverseRecOn with
  | nil => rfl
  | append_singleton xs x ih =>
    rw [extractLoop_append, ih, specExtractState_append]
    norm_num

instance exceptDecEq {e a : Type} [DecidableEq e] [DecidableEq a] :
    DecidableEq (Except e a) := fun x y =>
  match x, y with
  | .ok v, .ok w =>
    if h : v = w then isTrue (by rw [h])
    else isFalse (by intro hh; injection hh; contradiction)
  | .error v, .error w =>
    if h : v = w then isTrue (by rw [h])
    else isFalse (by intro hh; injection hh; contradiction)
  | .ok _, .error _ => isFalse (by intro hh; injection hh)
  | .error _, .ok _ => isFalse (by intro hh; injection hh)

theorem lastQualCoord_eq_none_of (p : Line → Option ℚ) (xs : List Line)
    (h : ∀ l ∈ xs, qualifies l = false) : lastQualCoord p xs = none := by
  have aux : ∀ (ys : List Line), (∀ l ∈ ys, qualifies l = false) → ∀ (acc : Option ℚ),
      ys.foldl (fun acc l => if qualifies l then updOpt (p l) acc else acc) acc = acc := by
    intro ys
    induction ys with
    | nil => intro _ _; rfl
    | cons a t ih =>
      intro hy acc
      simp only [List.foldl_cons, hy a (by simp), Bool.false_eq_true, if_false]
      exact ih (fun l hl => hy l (by simp [hl])) acc
  exact aux xs h none

theorem firstQualIdxAux_eq_none_of (e : Int) (xs : List Line)
    (h : ∀ l ∈ xs, qualifies l = false) : ∀ n, firstQualIdxAux e xs n = none := by
  induction xs with
  | nil => intro n; rfl
  | cons a t ih =>
    intro n
    simp only [firstQualIdxAux, h a (by simp), Bool.and_false, Bool.false_eq_true, if_false]
    exact ih (fun l hl => h l (by simp [hl])) (n + 1)

theorem lastQualIdxAux_eq_none_of (xs : List Line)
    (h : ∀ l ∈ xs, qualifies l = false) : ∀ n, lastQualIdxAux xs n = none := by
  induction xs with
  | nil => intro n; rfl
  | cons a t ih =>
    intro n
    simp only [lastQualIdxAux, ih (fun l hl => h l (by simp [hl])) (n + 1),
      h a (by simp), Bool.false_eq_true, if_false]

/-- C6: `FirstPrintZ` equals the most recent Z value seen on any `G1` line at
or before the first qualifying print move whose line number exceeds
`endInitSectionLastLine` (even when that Z was set before the init marker or
on a `G1` line that is not itself a print move), and `LastPrintZ` equals the
Z active at the last qualifying print move in the file; a qualifying print
move is a trimmed line beginning with `G1` whose E value is present and
strictly positive and whose X or Y is present. -/
theorem claim_C6_activeZ_tracking (lines : List Line) (endInit : Int) (name : Line)
    (r : ExtractResult) (h : extractGCodeCoordinates lines endInit name = .ok r) :
    (∀ k, firstQualIdx lines endInit = some k →
        r.firstPrintZ = (activeZ (lines.take (k + 1))).getD 0) ∧
    (∀ k, lastQualIdx lines = some k →
        r.lastPrintZ = (activeZ (lines.take (k + 1))).getD 0) := by
  unfold extractGCodeCoordinates at h
  rw [extractLoop_characterization] at h
  dsimp only at h
  have hr : r = ⟨((specExtractState endInit lines).firstPrintX).getD 0,
      ((specExtractState endInit lines).firstPrintY).getD 0,
      ((specExtractState endInit lines).firstPrintZ).getD 0,
      ((specExtractState endInit lines).lastPrintX).getD 0,
      ((specExtractState endInit lines).lastPrintY).getD 0,
      ((specExtractState endInit lines).lastPrintZ).getD 0⟩ := by
    split at h
    · split at h
      · cases h
      · injection h with h2; exact h2.symm
    · injection h with h2; exact h2.symm
  subst hr
  constructor
  · intro k hk
    simp only [specExtractState, firstQualIdx] at hk ⊢
    rw [hk]
    rfl
  · intro k hk
    simp only [specExtractState, lastQualIdx] at hk ⊢
    rw [hk]
    rfl

/-- Concrete input for the active-Z scenario: a Z set before the init
marker, a print move without Z, a Z-only move, then a final print move. -/
def linesS4 : List Line :=
  ["G1 Z3.601".data, "; MARKER".data, "G1 X10 Y20 E0.1".data,
    "G1 Z10.0".data, "G1 X11 Y21 E0.1".data]

theorem claim_C6_activeZ_tracking_witness :
    extractGCodeCoordinates linesS4 1 "prn".data =
      .ok ⟨10, 20, mkRat 3601 1000, 11, 21, 10⟩ ∧
    firstQualIdx linesS4 1 = some 2 ∧ lastQualIdx linesS4 = some 4 ∧
    (⟨10, 20, mkRat 3601 1000, 11, 21, 10⟩ : ExtractResult).firstPrintZ =
      (activeZ (linesS4.take 3)).getD 0 ∧
    (⟨10, 20, mkRat 3601 1000, 11, 21, 10⟩ : ExtractResult).lastPrintZ =
      (activeZ (linesS4.take 5)).getD 0 :=
  ⟨by decide, by decide, by decide,
    (claim_C6_activeZ_tracking linesS4 1 "prn".data _ (by decide)).1 2 (by decide),
    (claim_C6_activeZ_tracking linesS4 1 "prn".data _ (by decide)).2 4 (by decide)⟩

/-- C9: coordinate extraction returns the no-print-commands-found error
exactly when no qualifying print move occurs at a line number strictly
greater than `endInitSectionLastLine` and the requested printer name does
not contain the substring `unit-tests`; when the printer name contains
`unit-tests`, extraction succeeds; and on every success each coordinate
that was never observed during the scan - no first qualifying move carries
it, no qualifying move anywhere carries it, or no Z was active at the
relevant move - is returned as zero, each of the six tracked coordinates
defaulting independently. -/
theorem claim_C9_noPrintCommandsFound (lines : List Line) (endInit : Int) (name : Line) :
    (extractGCodeCoordinates lines endInit name =
        .error (.noPrintCommandsFound endInit) ↔
      firstQualIdx lines endInit = none ∧
        containsSub name "unit-tests".data = false) ∧
    (containsSub name "unit-tests".data = true →
      ∃ r, extractGCodeCoordinates lines endInit name = .ok r) ∧
    (∀ r, extractGCodeCoordinates lines endInit name = .ok r →
      ((firstQualIdx lines endInit).bind (fun k => lineX (lines.getD k [])) = none →
        r.firstPrintX = 0) ∧
      ((firstQualIdx lines endInit).bind (fun k => lineY (lines.getD k [])) = none →
        r.firstPrintY = 0) ∧
      ((firstQualIdx lines endInit).bind (fun k => activeZ (lines.take (k + 1))) = none →
        r.firstPrintZ = 0) ∧
      (lastQualCoord lineX lines = none → r.lastPrintX = 0) ∧
      (lastQualCoord lineY lines = none → r.lastPrintY = 0) ∧
      ((lastQualIdx lines).bind (fun k => activeZ (lines.take (k + 1))) = none →
        r.lastPrintZ = 0)) := by
  refine ⟨?_, ?_, ?_⟩
  · unfold extractGCodeCoordinates
    rw [extractLoop_characterization]
    cases hc : containsSub name "unit-tests".data with
    | true => simp
    | false =>
      cases hfi : firstQualIdx lines endInit with
      | some k =>
        simp only [specExtractState, hc, Bool.not_false, if_true, hfi,
          Option.isSome_some, Bool.not_true, Bool.false_eq_true, if_false]
        simp
      | none =>
        simp only [specExtractState, hc, Bool.not_false, if_true, hfi,
          Option.isSome_none, Bool.not_false, if_true]
        simp
  · intro hc
    unfold extractGCodeCoordinates
    simp [hc]
  · intro r h
    unfold extractGCodeCoordinates at h
    rw [extractLoop_characterization] at h
    dsimp only at h
    have hr : r = ⟨((specExtractState endInit lines).firstPrintX).getD 0,
        ((specExtractState endInit lines).firstPrintY).getD 0,
        ((specExtractState endInit lines).firstPrintZ).getD 0,
        ((specExtractState endInit lines).lastPrintX).getD 0,
        ((specExtractState endInit lines).lastPrintY).getD 0,
        ((specExtractState endInit lines).lastPrintZ).getD 0⟩ := by
      split at h
      · split at h
        · cases h
        · injection h with h2; exact h2.symm
      · injection h with h2; exact h2.symm
    subst hr
    refine ⟨?_, ?_, ?_, ?_, ?_, ?_⟩ <;> intro hnone <;>
      simp only [specExtractState] <;> rw [hnone] <;> rfl

theorem claim_C9_noPrintCommandsFound_witness :
    extractGCodeCoordinates ["G1 X5 E1".data] (-1) "prn".data =
      .ok ⟨5, 0, 0, 5, 0, 0⟩ ∧
    (firstQualIdx ["G1 X5 E1".data] (-1)).bind
        (fun k => lineY (["G1 X5 E1".data].getD k [])) = none ∧
    (⟨5, 0, 0, 5, 0, 0⟩ : ExtractResult).firstPrintY = 0 ∧
    (⟨5, 0, 0, 5, 0, 0⟩ : ExtractResult).lastPrintY = 0 ∧
    (⟨5, 0, 0, 5, 0, 0⟩ : ExtractResult).lastPrintZ = 0 ∧
    (∃ r, extractGCodeCoordinates ["M0".data] 0 "my-unit-tests".data = .ok r) :=
  ⟨by decide, by decide,
   ((claim_C9_noPrintCommandsFound ["G1 X5 E1".data] (-1) "prn".data).2.2
       ⟨5, 0, 0, 5, 0, 0⟩ (by decide)).2.1 (by decide),
   ((claim_C9_noPrintCommandsFound ["G1 X5 E1".data] (-1) "prn".data).2.2
       ⟨5, 0, 0, 5, 0, 0⟩ (by decide)).2.2.2.2.1 (by decide),
   ((claim_C9_noPrintCommandsFound ["G1 X5 E1".data] (-1) "prn".data).2.2
       ⟨5, 0, 0, 5, 0, 0⟩ (by decide)).2.2.2.2.2 (by decide),
   (claim_C9_noPrintCommandsFound ["M0".data] 0 "my-unit-tests".data).2.1 (by decide)⟩

/-! ### Streaming writer (processor.go 267-322, 512-630) -/

/-- Model of `strings.Index(line, ";")`. -/
def findSemiIdx : Line → Option Nat
  | [] => none
  | c :: t => if c = ';' then some 0 else (findSemiIdx t).map (· + 1)

/-- Loop body of `processLineWithMarkerSplit` (processor.go 615-630) over the
marker list. -/
def markerSplitGo (line : Line) : List Line → List Line
  | [] => [line]
  | m :: ms =>
    let cleanMarker := trimSpace m
    if containsSub line cleanMarker then
      match findSemiIdx line with
      | some pos =>
        let before := trimSpace (line.take pos)
        let after := trimSpace (line.drop pos)
        if before ≠ [] ∧ after ≠ [] then [before, after] else markerSplitGo line ms
      | none => markerSplitGo line ms
    else markerSplitGo line ms

/-- processor.go 615-630: split a header line at the first `;` when it
contains a marker and both halves are nonempty after trimming. -/
def processLineWithMarkerSplit (line : Line) (markers : List Line) : List Line :=
  markerSplitGo line markers

/-- The skip loop `for lineNum < startLine && scanner.Scan()`. -/
def skipToLine (startLine : Int) : List Line → Int → List Line × Int
  | [], n => ([], n)
  | l :: t, n => if n < startLine then skipToLine startLine t (n + 1) else (l :: t, n)

/-- What `streamLinesRange` writes for one input line. -/
def emitLine (processMarkerSplit : Bool) (markers : List Line) (l : Line) : List Line :=
  if processMarkerSplit then processLineWithMarkerSplit l markers else [l]

/-- The emit loop `for lineNum <= endLine && scanner.Scan()`. -/
def streamFrom (processMarkerSplit : Bool) (markers : List Line) (endLine : Int) :
    List Line → Int → List Line
  | [], _ => []
  | l :: t, n =>
    if n ≤ endLine then
      emitLine processMarkerSplit markers l ++
        streamFrom processMarkerSplit markers endLine t (n + 1)
    else []

/-- processor.go 512-549 `streamLinesRange`: skip to `startLine`, then emit
lines through `endLine` inclusive, applying the marker split when asked. -/
def streamLinesRange (lines : List Line) (startLine endLine : Int)
    (processMarkerSplit : Bool) (markers : List Line) : List Line :=
  let p := skipToLine startLine lines 0
  streamFrom processMarkerSplit markers endLine p.1 p.2

/-- processor.go 551-576 `streamLinesFromPosition`: skip to `startLine`,
then emit every remaining line. -/
def streamLinesFromPosition (lines : List Line) (startLine : Int) : List Line :=
  (skipToLine startLine lines 0).1

/-- Model of `strings.Split(s, "\n")`. -/
def splitOnNl : Line → List Line
  | [] => [[]]
  | c :: rest =>
    match splitOnNl rest with
    | h :: t => if c = '\n' then [] :: h :: t else (c :: h) :: t
    | [] => [[]]

/-- processor.go 578-612 `streamGeneratedContent`: split the rendered
template output on line-feeds, writing each line unless it is empty and the
output has more than one line. -/
def streamGeneratedContent (rendered : Line) : List Line :=
  let ls := splitOnNl rendered
  ls.filter fun line => !line.isEmpty || ls.length == 1

/-- processor.go 83-94 `MarkerPositions`. -/
structure MarkerPositions where
  endInitSectionFirstLine : Int
  endInitSectionLastLine : Int
  endPrintSectionFirstLine : Int
  endPrintSectionLastLine : Int
  firstPrintX : ℚ
  firstPrintY : ℚ
  firstPrintZ : ℚ
  lastPrintX : ℚ
  lastPrintY : ℚ
  lastPrintZ : ℚ
deriving DecidableEq, Repr

/-- What one iteration of the pass-3 loop writes (processor.go 296-314):
body range (skipped when adjacent), end-marker range, generated content.
`render i` is the text produced by executing the template for (1-based)
iteration `i`. -/
def iterationChunk (lines : List Line) (pos : MarkerPositions) (render : Int → Line)
    (i : Int) : List Line :=
  (if pos.endInitSectionLastLine + 1 < pos.endPrintSectionFirstLine then
    streamLinesRange lines (pos.endInitSectionLastLine + 1)
      (pos.endPrintSectionFirstLine - 1) false []
  else []) ++
  streamLinesRange lines pos.endPrintSectionFirstLine pos.endPrintSectionLastLine false [] ++
  streamGeneratedContent (render (i + 1))

/-- The `for i := 0; i < iterations; i++` loop, with `k` iterations left and
`i` the current index. -/
def iterLoop (chunk : Int → List Line) : Nat → Int → List Line
  | 0, _ => []
  | k + 1, i => chunk i ++ iterLoop chunk k (i + 1)

/-- The full sequence of lines written by `ProcessFile` (processor.go
291-321) once marker positions are known: header with marker split, the
iteration loop, then the footer. -/
def processFileEmit (lines : List Line) (pos : MarkerPositions) (iterations : Int)
    (endInitMarkers : List Line) (render : Int → Line) : List Line :=
  streamLinesRange lines 0 pos.endInitSectionLastLine true endInitMarkers ++
  iterLoop (iterationChunk lines pos render) iterations.toNat 0 ++
  streamLinesFromPosition lines (pos.endPrintSectionLastLine + 1)

/-- `fmt.Fprintln` semantics: each emitted line is newline-terminated. -/
def joinNl (ls : List Line) : Line :=
  (ls.map fun l => l ++ ['\n']).flatten

/-- The bytes `ProcessFile` writes to the output file. -/
def processFileBytes (lines : List Line) (pos : MarkerPositions) (iterations : Int)
    (endInitMarkers : List Line) (render : Int → Line) : Line :=
  joinNl (processFileEmit lines pos iterations endInitMarkers render)

/-! ### Validation and orchestration (processor.go 267-290, 325-362, 632-656) -/

/-- The nested conflict-check loop of `validateInput` (processor.go
646-653): the first init-marker line containing an end-marker line. -/
def findConflict : List Line → List Line → Option (Line × Line)
  | [], _ => none
  | s :: rest, eps =>
    match eps.find? (fun ep => containsSub s ep) with
    | some ep => some (s, ep)
    | none => findConflict rest eps

/-- processor.go 632-656 `validateInput`. -/
def validateInput (endInitSection endPrintSection : List Line) (iterations : Int) :
    Except ProcError Unit :=
  if endInitSection = [] then .error .endInitSectionMarkerEmpty
  else if endPrintSection = [] then .error .endPrintSectionMarkerEmpty
  else if iterations ≤ 0 then .error .iterationsNotPositive
  else
    match findConflict endInitSection endPrintSection with
    | some (s, ep) => .error (.markerConflict s ep)
    | none => .ok ()

/-- processor.go 325-362 `findMarkerPositions`, parameterized by the two
strategy searches and the coordinate extraction: init search, print search
from the init range's last line, order check, then extraction. -/
def findMarkerPositionsM (initRes : Except ProcError (Int × Int))
    (printRes : Int → Except ProcError (Int × Int))
    (extractRes : Int → Except ProcError ExtractResult) :
    Except ProcError MarkerPositions := do
  let ip ← initRes
  let pp ← printRes ip.2
  if ip.2 ≥ pp.1 then
    .error .invalidMarkerOrder
  else do
    let r ← extractRes ip.2
    pure ⟨ip.1, ip.2, pp.1, pp.2, r.firstPrintX, r.firstPrintY, r.firstPrintZ,
      r.lastPrintX, r.lastPrintY, r.lastPrintZ⟩

/-- processor.go 267-322 `ProcessFile`: validate, locate markers and
coordinates, and only then open the output and stream it. The returned list
is the content of the output file; an error means the output was never
created. -/
def processFileModel (endInitSection endPrintSection : List Line) (iterations : Int)
    (initRes : Except ProcError (Int × Int))
    (printRes : Int → Except ProcError (Int × Int))
    (extractRes : Int → Except ProcError ExtractResult)
    (lines : List Line) (render : Int → Line) : Except ProcError (List Line) := do
  let _ ← validateInput endInitSection endPrintSection iterations
  let pos ← findMarkerPositionsM initRes printRes extractRes
  pure (processFileEmit lines pos iterations endInitSection render)

/-! ### Equations for the streaming loops -/

theorem streamFrom_eq (b : Bool) (m : List Line) (e : Int) :
    ∀ (ls : List Line) (n : Int),
      streamFrom b m e ls n =
        ((ls.take (e + 1 - n).toNat).map (emitLine b m)).flatten := by
  intro ls
  induction ls with
  | nil => intro n; simp [streamFrom]
  | cons l t ih =>
    intro n
    by_cases hn : n ≤ e
    · have harith : (e + 1 - n).toNat = (e + 1 - (n + 1)).toNat + 1 := by omega
      simp only [streamFrom, hn, if_true, harith, List.take_succ_cons, List.map_cons,
        List.flatten_cons, ih (n + 1)]
    · have harith : (e + 1 - n).toNat = 0 := by omega
      simp [streamFrom, hn, harith]

theorem streamLinesRange_eq (lines : List Line) (s e : Int) (b : Bool) (m : List Line)
    (hs : 0 ≤ s) :
    streamLinesRange lines s e b m =
      (((lines.drop s.toNat).take (e + 1 - s).toNat).map (emitLine b m)).flatten := by
  have aux : ∀ (ls : List Line) (n : Int), 0 ≤ n → n ≤ s →
      streamFrom b m e (skipToLine s ls n).1 (skipToLine s ls n).2 =
        (((ls.drop (s - n).toNat).take (e + 1 - s).toNat).map (emitLine b m)).flatten := by
    intro ls
    induction ls with
    | nil => intro n _ _; simp [skipToLine, streamFrom]
    | cons l t ih =>
      intro n h0 hns
      by_cases hlt : n < s
      · have harith : (s - n).toNat = (s - (n + 1)).toNat + 1 := by omega
        simp only [skipToLine, hlt, if_true, harith, List.drop_succ_cons]
        exact ih (n + 1) (by omega) (by omega)
      · have hn : n = s := by omega
        have harith : (s - n).toNat = 0 := by omega
        simp only [skipToLine, hlt, if_false, harith, List.drop_zero]
        subst hn
        exact streamFrom_eq b m e (l :: t) n
  have := aux lines 0 (by omega) hs
  simpa [streamLinesRange] using this

theorem streamLinesFromPosition_eq (lines : List Line) (s : Int) (hs : 0 ≤ s) :
    streamLinesFromPosition lines s = lines.drop s.toNat := by
  have aux : ∀ (ls : List Line) (n : Int), 0 ≤ n → n ≤ s →
      (skipToLine s ls n).1 = ls.drop (s - n).toNat := by
    intro ls
    induction ls with
    | nil => intro n _ _; simp [skipToLine]
    | cons l t ih =>
      intro n h0 hns
      by_cases hlt : n < s
      · have harith : (s - n).toNat = (s - (n + 1)).toNat + 1 := by omega
        simp only [skipToLine, hlt, if_true, harith, List.drop_succ_cons]
        exact ih (n + 1) (by omega) (by omega)
      · have harith : (s - n).toNat = 0 := by omega
        simp [skipToLine, hlt, harith]
  simpa [streamLinesFromPosition] using aux lines 0 (by omega) hs

theorem iterLoop_eq (chunk : Int → List Line) :
    ∀ (n : Nat) (i : Int),
      iterLoop chunk n i =
        ((List.range n).map fun k : Nat => chunk (i + (k : Int))).flatten := by
  intro n
  induction n with
  | zero => intro i; simp [iterLoop]
  | succ k ih =>
    intro i
    rw [iterLoop, ih (i + 1), List.range_succ_eq_map]
    simp only [List.map_cons, List.flatten_cons, List.map_map, Nat.cast_zero, Int.add_zero]
    congr 1
    congr 1
    apply List.map_congr_left
    intro a _
    simp only [Function.comp_apply]
    congr 1
    push_cast
    ring

theorem flatten_map_singleton {α : Type} (xs : List α) :
    (xs.map fun l => [l]).flatten = xs := by
  induction xs with
  | nil => rfl
  | cons a t ih => simp [ih]


theorem exceptBind_error {e a b : Type} (v : e) (f : a → Except e b) :
    (Except.error v >>= f) = Except.error v := rfl

theorem exceptBind_ok {e a b : Type} (v : a) (f : a → Except e b) :
    (Except.ok v >>= f) = f v := rfl

/-- C7: for every input and every pair of search strategies, the
transformation rejects the combined search result with the
invalid-marker-positions error exactly when
`endInitSectionLastLine >= endPrintSectionFirstLine`; consequently in every
successful transformation the init marker range strictly precedes the
end-of-print marker range.  (The strategy searches and the extraction are
abstract here; in the source they never produce this error themselves.) -/
theorem claim_C7_marker_order (initRes : Except ProcError (Int × Int))
    (printRes : Int → Except ProcError (Int × Int))
    (extractRes : Int → Except ProcError ExtractResult)
    (hI : initRes ≠ .error .invalidMarkerOrder)
    (hP : ∀ n, printRes n ≠ .error .invalidMarkerOrder)
    (hX : ∀ n, extractRes n ≠ .error .invalidMarkerOrder) :
    (findMarkerPositionsM initRes printRes extractRes = .error .invalidMarkerOrder ↔
      ∃ a b c d, initRes = .ok (a, b) ∧ printRes b = .ok (c, d) ∧ c ≤ b) ∧
    (∀ pos, findMarkerPositionsM initRes printRes extractRes = .ok pos →
      pos.endInitSectionLastLine < pos.endPrintSectionFirstLine) := by
  unfold findMarkerPositionsM
  cases hi : initRes with
  | error v =>
    rw [hi] at hI
    simp only [exceptBind_error]
    constructor
    · constructor
      · intro h; injection h with hv; rw [hv] at hI; exact (hI rfl).elim
      · rintro ⟨a, b, c, d, hab, -, -⟩; cases hab
    · intro pos h; cases h
  | ok ip =>
    simp only [exceptBind_ok]
    cases hp : printRes ip.2 with
    | error v =>
      have hPn := hP ip.2
      rw [hp] at hPn
      simp only [exceptBind_error]
      constructor
      · constructor
        · intro h; injection h with hv; rw [hv] at hPn; exact (hPn rfl).elim
        · rintro ⟨a, b, c, d, hab, hcd, -⟩
          injection hab with hab
          have hb : printRes b = Except.error v := by rw [hab] at hp; exact hp
          rw [hb] at hcd
          cases hcd
      · intro pos h; cases h
    | ok pp =>
      simp only [exceptBind_ok]
      by_cases hord : ip.2 ≥ pp.1
      · simp only [hord, if_true]
        constructor
        · constructor
          · intro _
            exact ⟨ip.1, ip.2, pp.1, pp.2, by simp, by simp [hp], by omega⟩
          · intro _; trivial
        · intro pos h; cases h
      · simp only [hord, if_false]
        have hmpr : ¬∃ a b c d, (Except.ok ip : Except ProcError (Int × Int)) = .ok (a, b) ∧
            printRes b = Except.ok (c, d) ∧ c ≤ b := by
          rintro ⟨a, b, c, d, hab, hcd, hle⟩
          injection hab with hab
          have hb : printRes b = Except.ok pp := by rw [hab] at hp; exact hp
          rw [hb] at hcd
          injection hcd with hcd
          have h1 : ip.2 = b := by rw [hab]
          have h2 : pp.1 = c := by rw [hcd]
          omega
        cases hx : extractRes ip.2 with
        | error v =>
          have hXn := hX ip.2
          rw [hx] at hXn
          simp only [exceptBind_error]
          constructor
          · constructor
            · intro h; injection h with hv; rw [hv] at hXn; exact (hXn rfl).elim
            · intro h; exact (hmpr h).elim
          · intro pos h; cases h
        | ok r =>
          simp only [exceptBind_ok]
          constructor
          · constructor
            · intro h; cases h
            · intro h; exact (hmpr h).elim
          · intro pos h
            injection h with h
            rw [← h]
            simpa using by omega

theorem claim_C7_marker_order_witness :
    (findMarkerPositionsM (.ok (0, 5)) (fun _ => .ok (3, 4))
        (fun _ => .ok ⟨0, 0, 0, 0, 0, 0⟩) = .error .invalidMarkerOrder ↔
      ∃ a b c d, (Except.ok (0, 5) : Except ProcError (Int × Int)) = .ok (a, b) ∧
        (Except.ok (3, 4) : Except ProcError (Int × Int)) = .ok (c, d) ∧ c ≤ b) ∧
    (∀ pos, findMarkerPositionsM (.ok (0, 5)) (fun _ => .ok (3, 4))
        (fun _ => .ok ⟨0, 0, 0, 0, 0, 0⟩) = .ok pos →
      pos.endInitSectionLastLine < pos.endPrintSectionFirstLine) :=
  claim_C7_marker_order (.ok (0, 5)) (fun _ => .ok (3, 4)) (fun _ => .ok ⟨0, 0, 0, 0, 0, 0⟩)
    (fun h => Except.noConfusion h) (fun _ h => Except.noConfusion h)
    (fun _ h => Except.noConfusion h)

/-- C10: if the transformation fails during pre-flight validation (empty
marker lists, non-positive iterations, or an init-marker line containing an
end-marker line) or during pass 1 (search failure, invalid marker order, or
extraction failure), no output is produced: the model yields an output list
only when `validateInput` and `findMarkerPositionsM` both succeeded. -/
theorem claim_C10_no_output_on_early_failure
    (endInitSection endPrintSection : List Line) (iterations : Int)
    (initRes : Except ProcError (Int × Int))
    (printRes : Int → Except ProcError (Int × Int))
    (extractRes : Int → Except ProcError ExtractResult)
    (lines : List Line) (render : Int → Line) :
    (∀ e, validateInput endInitSection endPrintSection iterations = .error e →
      processFileModel endInitSection endPrintSection iterations initRes printRes
        extractRes lines render = .error e) ∧
    (∀ e, findMarkerPositionsM initRes printRes extractRes = .error e →
      validateInput endInitSection endPrintSection iterations = .ok () →
      processFileModel endInitSection endPrintSection iterations initRes printRes
        extractRes lines render = .error e) ∧
    (∀ out, processFileModel endInitSection endPrintSection iterations initRes printRes
        extractRes lines render = .ok out →
      validateInput endInitSection endPrintSection iterations = .ok () ∧
      ∃ pos, findMarkerPositionsM initRes printRes extractRes = .ok pos ∧
        out = processFileEmit lines pos iterations endInitSection render) := by
  refine ⟨?_, ?_, ?_⟩
  · intro e he
    unfold processFileModel
    rw [he]
    rfl
  · intro e he hv
    unfold processFileModel
    rw [hv]
    simp only [exceptBind_ok, he]
    rfl
  · intro out hout
    unfold processFileModel at hout
    cases hv : validateInput endInitSection endPrintSection iterations with
    | error e => rw [hv] at hout; cases hout
    | ok u =>
      cases u
      rw [hv] at hout
      simp only [exceptBind_ok] at hout
      cases hf : findMarkerPositionsM initRes printRes extractRes with
      | error e => rw [hf] at hout; cases hout
      | ok pos =>
        rw [hf] at hout
        simp only [exceptBind_ok] at hout
        injection hout with hout
        exact ⟨rfl, pos, rfl, hout.symm⟩

theorem claim_C10_no_output_on_early_failure_witness :
    processFileModel [] ["M625".data] 2 (.ok (0, 1)) (fun _ => .ok (2, 2))
      (fun _ => .ok ⟨0, 0, 0, 0, 0, 0⟩) ["a".data] (fun _ => []) =
      .error .endInitSectionMarkerEmpty :=
  (claim_C10_no_output_on_early_failure [] ["M625".data] 2 (.ok (0, 1))
      (fun _ => .ok (2, 2)) (fun _ => .ok ⟨0, 0, 0, 0, 0, 0⟩) ["a".data]
      (fun _ => [])).1 .endInitSectionMarkerEmpty (by decide)

theorem emitLine_true (m : List Line) :
    emitLine true m = fun l => processLineWithMarkerSplit l m := rfl

theorem emitLine_false (m : List Line) : emitLine false m = fun l => [l] := rfl

/-- Decomposition of the pass 2-4 output into declarative slices. -/
theorem processFileEmit_decomposition (lines : List Line) (pos : MarkerPositions)
    (iterations : Int) (endInitMarkers : List Line) (render : Int → Line)
    (hN : 1 ≤ iterations)
    (h0 : 0 ≤ pos.endInitSectionLastLine)
    (h1 : pos.endInitSectionLastLine < pos.endPrintSectionFirstLine)
    (h2 : pos.endPrintSectionFirstLine ≤ pos.endPrintSectionLastLine) :
    processFileEmit lines pos iterations endInitMarkers render =
      ((lines.take (pos.endInitSectionLastLine + 1).toNat).map
          fun l => processLineWithMarkerSplit l endInitMarkers).flatten ++
        ((List.range iterations.toNat).map fun i : Nat =>
          (lines.drop (pos.endInitSectionLastLine + 1).toNat).take
              (pos.endPrintSectionFirstLine - pos.endInitSectionLastLine - 1).toNat ++
            ((lines.drop pos.endPrintSectionFirstLine.toNat).take
              (pos.endPrintSectionLastLine - pos.endPrintSectionFirstLine + 1).toNat ++
            streamGeneratedContent (render ((i : Int) + 1)))).flatten ++
        lines.drop (pos.endPrintSectionLastLine + 1).toNat ∧
    processFileBytes lines pos iterations endInitMarkers render =
      joinNl
        (((lines.take (pos.endInitSectionLastLine + 1).toNat).map
            fun l => processLineWithMarkerSplit l endInitMarkers).flatten ++
          ((List.range iterations.toNat).map fun i : Nat =>
            (lines.drop (pos.endInitSectionLastLine + 1).toNat).take
                (pos.endPrintSectionFirstLine - pos.endInitSectionLastLine - 1).toNat ++
              ((lines.drop pos.endPrintSectionFirstLine.toNat).take
                (pos.endPrintSectionLastLine - pos.endPrintSectionFirstLine + 1).toNat ++
              streamGeneratedContent (render ((i : Int) + 1)))).flatten ++
          lines.drop (pos.endPrintSectionLastLine + 1).toNat) := by
  have hheader : streamLinesRange lines 0 pos.endInitSectionLastLine true endInitMarkers =
      ((lines.take (pos.endInitSectionLastLine + 1).toNat).map
        fun l => processLineWithMarkerSplit l endInitMarkers).flatten := by
    rw [streamLinesRange_eq lines 0 _ true endInitMarkers (by omega), emitLine_true]
    norm_num
  have hbody : (if pos.endInitSectionLastLine + 1 < pos.endPrintSectionFirstLine then
      streamLinesRange lines (pos.endInitSectionLastLine + 1)
        (pos.endPrintSectionFirstLine - 1) false []
    else []) =
      (lines.drop (pos.endInitSectionLastLine + 1).toNat).take
        (pos.endPrintSectionFirstLine - pos.endInitSectionLastLine - 1).toNat := by
    by_cases hb : pos.endInitSectionLastLine + 1 < pos.endPrintSectionFirstLine
    · rw [if_pos hb, streamLinesRange_eq _ _ _ _ _ (by omega), emitLine_false,
        flatten_map_singleton]
      have harith : (pos.endPrintSectionFirstLine - 1 + 1 -
          (pos.endInitSectionLastLine + 1)).toNat =
          (pos.endPrintSectionFirstLine - pos.endInitSectionLastLine - 1).toNat := by omega
      rw [harith]
    · rw [if_neg hb]
      have harith : (pos.endPrintSectionFirstLine -
          pos.endInitSectionLastLine - 1).toNat = 0 := by omega
      rw [harith]
      simp
  have hmarker : streamLinesRange lines pos.endPrintSectionFirstLine
      pos.endPrintSectionLastLine false [] =
      (lines.drop pos.endPrintSectionFirstLine.toNat).take
        (pos.endPrintSectionLastLine - pos.endPrintSectionFirstLine + 1).toNat := by
    rw [streamLinesRange_eq _ _ _ _ _ (by omega), emitLine_false, flatten_map_singleton]
    have harith : (pos.endPrintSectionLastLine + 1 - pos.endPrintSectionFirstLine).toNat =
        (pos.endPrintSectionLastLine - pos.endPrintSectionFirstLine + 1).toNat := by omega
    rw [harith]
  have hfooter := streamLinesFromPosition_eq lines (pos.endPrintSectionLastLine + 1) (by omega)
  have hiter : iterLoop (iterationChunk lines pos render) iterations.toNat 0 =
      ((List.range iterations.toNat).map fun i : Nat =>
        (lines.drop (pos.endInitSectionLastLine + 1).toNat).take
            (pos.endPrintSectionFirstLine - pos.endInitSectionLastLine - 1).toNat ++
          ((lines.drop pos.endPrintSectionFirstLine.toNat).take
            (pos.endPrintSectionLastLine - pos.endPrintSectionFirstLine + 1).toNat ++
          streamGeneratedContent (render ((i : Int) + 1)))).flatten := by
    rw [iterLoop_eq]
    congr 1
    apply List.map_congr_left
    intro i _
    unfold iterationChunk
    rw [hbody, hmarker]
    have harith : (0 : Int) + (i : Int) + 1 = (i : Int) + 1 := by omega
    rw [harith, List.append_assoc]
  constructor
  · unfold processFileEmit
    rw [hheader, hiter, hfooter]
  · unfold processFileBytes processFileEmit
    rw [hheader, hiter, hfooter]

/-- C1: for every input file and every request with `Iterations = N >= 1`,
after the marker positions are located, `ProcessFile` writes exactly, in
order: the header lines `[0, endInitSectionLastLine]` with the
marker-comment split applied, then N repetitions of (the body lines
`[endInitSectionLastLine+1, endPrintSectionFirstLine-1]`, then the
end-marker lines `[endPrintSectionFirstLine, endPrintSectionLastLine]`,
then the template rendered for iteration i), then the footer lines
`[endPrintSectionLastLine+1, EOF)`, with a newline terminator appended to
every emitted line; hence every input line appears exactly once in the
header or footer slice or once per iteration in the body/end-marker slice,
in original relative order. -/
theorem claim_C1_output_decomposition (lines : List Line) (pos : MarkerPositions)
    (iterations : Int) (endInitMarkers : List Line) (render : Int → Line)
    (hN : 1 ≤ iterations)
    (h0 : 0 ≤ pos.endInitSectionLastLine)
    (h1 : pos.endInitSectionLastLine < pos.endPrintSectionFirstLine)
    (h2 : pos.endPrintSectionFirstLine ≤ pos.endPrintSectionLastLine) :
    processFileEmit lines pos iterations endInitMarkers render =
      ((lines.take (pos.endInitSectionLastLine + 1).toNat).map
          fun l => processLineWithMarkerSplit l endInitMarkers).flatten ++
        ((List.range iterations.toNat).map fun i : Nat =>
          (lines.drop (pos.endInitSectionLastLine + 1).toNat).take
              (pos.endPrintSectionFirstLine - pos.endInitSectionLastLine - 1).toNat ++
            ((lines.drop pos.endPrintSectionFirstLine.toNat).take
              (pos.endPrintSectionLastLine - pos.endPrintSectionFirstLine + 1).toNat ++
            streamGeneratedContent (render ((i : Int) + 1)))).flatten ++
        lines.drop (pos.endPrintSectionLastLine + 1).toNat ∧
    processFileBytes lines pos iterations endInitMarkers render =
      joinNl
        (((lines.take (pos.endInitSectionLastLine + 1).toNat).map
            fun l => processLineWithMarkerSplit l endInitMarkers).flatten ++
          ((List.range iterations.toNat).map fun i : Nat =>
            (lines.drop (pos.endInitSectionLastLine + 1).toNat).take
                (pos.endPrintSectionFirstLine - pos.endInitSectionLastLine - 1).toNat ++
              ((lines.drop pos.endPrintSectionFirstLine.toNat).take
                (pos.endPrintSectionLastLine - pos.endPrintSectionFirstLine + 1).toNat ++
              streamGeneratedContent (render ((i : Int) + 1)))).flatten ++
          lines.drop (pos.endPrintSectionLastLine + 1).toNat) :=
  processFileEmit_decomposition lines pos iterations endInitMarkers render hN h0 h1 h2

def c1Lines : List Line :=
  ["HEADER".data, "START".data, "BODY".data, "END".data, "FOOTER".data]

def c1Pos : MarkerPositions := ⟨1, 1, 3, 3, 0, 0, 0, 0, 0, 0⟩

theorem claim_C1_output_decomposition_witness :
    processFileEmit c1Lines c1Pos 2 ["START".data] (fun _ => []) =
      ["HEADER".data, "START".data, "BODY".data, "END".data, [],
        "BODY".data, "END".data, [], "FOOTER".data] := by
  rw [(claim_C1_output_decomposition c1Lines c1Pos 2 ["START".data] (fun _ => [])
    (by decide) (by decide) (by decide) (by decide)).1]
  decide

/-! ### Marker search strategies (strategy/common.go, after-first.go,
before-first.go) -/

/-- The matching loop of `tryMatchMultilineStart` (common.go 153-184):
consume a marker on containment, skip empty and comment lines, abort on
anything else; succeed when every marker was matched, reporting the first
and last matched window lines. -/
def tryMatchLoop (wstart : Int) : List Line → List Line → Nat → Int → Int → Option (Int × Int)
  | _, [], _, first, last => some (first, last)
  | [], _ :: _, _, _, _ => none
  | l :: ws, m :: ms, widx, first, last =>
    if containsTM l m then
      tryMatchLoop wstart ws ms (widx + 1)
        (if first = -1 then wstart + (widx : Int) else first) (wstart + (widx : Int))
    else if skippableLine l then
      tryMatchLoop wstart ws (m :: ms) (widx + 1) first last
    else none

/-- common.go 153-184 `tryMatchMultilineStart`. -/
def tryMatchMultilineStart (window markers : List Line) (startIdx : Nat)
    (windowStartLine : Int) : Option (Int × Int) :=
  tryMatchLoop windowStartLine (window.drop startIdx) markers startIdx (-1) (-1)

/-- Single-marker branch of `findStartMarkerInWindow` (common.go 132-141). -/
def findSingleInWindow (m : Line) (wstart : Int) : List Line → Nat → Option (Int × Int)
  | [], _ => none
  | l :: ls, i =>
    if containsTM l m then some (wstart + (i : Int), wstart + (i : Int))
    else findSingleInWindow m wstart ls (i + 1)

/-- The `for startIdx := range window` loop of the multiline branch
(common.go 144-148), with `k` start positions left to try. -/
def multiScan (window markers : List Line) (wstart : Int) : Nat → Nat → Option (Int × Int)
  | _, 0 => none
  | s, k + 1 =>
    match tryMatchMultilineStart window markers s wstart with
    | some r => some r
    | none => multiScan window markers wstart (s + 1) k

/-- common.go 131-150 `findStartMarkerInWindow`. -/
def findStartMarkerInWindow (window markers : List Line) (windowStartLine : Int) :
    Option (Int × Int) :=
  match markers with
  | [m] => findSingleInWindow m windowStartLine window 0
  | _ => multiScan window markers windowStartLine 0 window.length

/-- The multiline sliding-window loop of `findMarkerWithSlidingWindow`
(common.go 80-103): append the line, trim the window to `cap`, search the
window; `returnFirst` returns the first hit, otherwise the last is kept. -/
def slidingMulti (markers : List Line) (cap : Nat) (returnFirst : Bool) :
    List Line → Int → List Line → Option (Int × Int) → Option (Int × Int)
  | [], _, _, acc => acc
  | l :: rest, i, window, acc =>
    let w1 := window ++ [l]
    let w2 := if w1.length > cap then w1.drop 1 else w1
    match findStartMarkerInWindow w2 markers (i - (w2.length : Int) + 1) with
    | some r =>
      if returnFirst then some r
      else slidingMulti markers cap returnFirst rest (i + 1) w2 (some r)
    | none => slidingMulti markers cap returnFirst rest (i + 1) w2 acc

/-- The single-marker loop of `findMarkerWithSlidingWindow`
(common.go 67-77). -/
def singleScan (m : Line) (returnFirst : Bool) :
    List Line → Int → Option (Int × Int) → Option (Int × Int)
  | [], _, acc => acc
  | l :: rest, i, acc =>
    if containsTM l m then
      if returnFirst then some (i, i)
      else singleScan m returnFirst rest (i + 1) (some (i, i))
    else singleScan m returnFirst rest (i + 1) acc

/-- common.go 60-111 `findMarkerWithSlidingWindow` over the line range
`[startIdx, endIdx]`. -/
def findMarkerWithSlidingWindow (lines markers : List Line) (startIdx endIdx : Int)
    (returnFirst : Bool) : Except StratError (Int × Int) :=
  if markers = [] then .error .noMarkersProvided
  else
    let slice := (lines.drop startIdx.toNat).take (endIdx - startIdx + 1).toNat
    let res :=
      if markers.length = 1 then
        singleScan (markers.headD []) returnFirst slice startIdx none
      else
        slidingMulti markers (markers.length + 10) returnFirst slice startIdx [] none
    match res with
    | some r => .ok r
    | none => .error .markerNotFound

/-- common.go 34-36 `FindFirstMarkerFromStart`. -/
def FindFirstMarkerFromStart (lines markers : List Line) : Except StratError (Int × Int) :=
  findMarkerWithSlidingWindow lines markers 0 ((lines.length : Int) - 1) true

/-- common.go 39-44 `FindFirstMarkerFromLine` with its bounds check. -/
def FindFirstMarkerFromLine (lines markers : List Line) (startLine : Int) :
    Except StratError (Int × Int) :=
  if startLine < 0 ∨ (lines.length : Int) ≤ startLine then .error .startLineOutOfBounds
  else findMarkerWithSlidingWindow lines markers startLine ((lines.length : Int) - 1) true

/-- after-first.go 6-12: the init search of `AfterFirstAppearStrategy`. -/
def afterFirstFindInitSectionPosition (lines markers : List Line) :
    Except StratError (Int × Int) :=
  FindFirstMarkerFromStart lines markers

/-- after-first.go 14-20: the print search of `AfterFirstAppearStrategy`,
starting one past `searchFromLine`. -/
def afterFirstFindPrintSectionPosition (lines markers : List Line)
    (searchFromLine : Int) : Except StratError (Int × Int) :=
  FindFirstMarkerFromLine lines markers (searchFromLine + 1)

/-- The streaming window loop shared by both `BeforeCommandStrategy`
searches (before-first.go 141-215). -/
def beforeScan (markers : List Line) : List Line → Int → List Line → Option (Int × Int)
  | [], _, _ => none
  | l :: rest, i, window =>
    let w1 := window ++ [l]
    let w2 := if w1.length > markers.length + 10 then w1.drop 1 else w1
    match findStartMarkerInWindow w2 markers (i - (w2.length : Int) + 1) with
    | some r => some r
    | none => beforeScan markers rest (i + 1) w2

/-- before-first.go 141-173: the init search of `BeforeCommandStrategy`. -/
def beforeFindInitSectionPosition (lines markers : List Line) :
    Except StratError (Int × Int) :=
  match beforeScan markers lines 0 [] with
  | some r => .ok r
  | none => .error .startMarkerNotFound

/-- before-first.go 175-215: the print search of `BeforeCommandStrategy`;
the skip loop consumes `min(searchFromLine+1, length)` lines. -/
def beforeFindPrintSectionPosition (lines markers : List Line) (searchFromLine : Int) :
    Except StratError (Int × Int) :=
  let k := min (searchFromLine + 1).toNat lines.length
  match beforeScan markers (lines.drop k) (k : Int) [] with
  | some r => .ok r
  | none => .error .endMarkerNotFound

example : afterFirstFindInitSectionPosition c1Lines ["START".data] = .ok (1, 1) := by decide
example : afterFirstFindPrintSectionPosition c1Lines ["END".data] 1 = .ok (3, 3) := by decide
example : beforeFindInitSectionPosition c1Lines ["START".data] = .ok (1, 1) := by decide
example : beforeFindPrintSectionPosition c1Lines ["END".data] 1 = .ok (3, 3) := by decide
example : afterFirstFindInitSectionPosition c1Lines ["S".data, "B".data] = .ok (1, 2) := by
  decide

/-- Outcome equivalence for two searches: same successes, hence also
failure exactly together (error payloads may differ). -/
def sameOutcome (x y : Except StratError (Int × Int)) : Prop :=
  ∀ r : Int × Int, x = .ok r ↔ y = .ok r

/-- Proof abbreviation for the common `match result` wrapping. -/
def wrapRes (o : Option (Int × Int)) (e : StratError) : Except StratError (Int × Int) :=
  match o with
  | some r => .ok r
  | none => .error e

theorem sameOutcome_wrapRes (o : Option (Int × Int)) (e1 e2 : StratError) :
    sameOutcome (wrapRes o e1) (wrapRes o e2) := by
  intro r
  cases o <;> simp [wrapRes]

theorem sameOutcome_of_errors (x y : Except StratError (Int × Int))
    (hx : ∀ r : Int × Int, x ≠ .ok r) (hy : ∀ r : Int × Int, y ≠ .ok r) :
    sameOutcome x y := by
  intro r
  constructor
  · intro h; exact absurd h (hx r)
  · intro h; exact absurd h (hy r)

theorem slidingMulti_true_eq_beforeScan (markers : List Line) :
    ∀ (rest : List Line) (i : Int) (window : List Line),
      slidingMulti markers (markers.length + 10) true rest i window none =
        beforeScan markers rest i window := by
  intro rest
  induction rest with
  | nil => intro i window; rfl
  | cons l t ih =>
    intro i window
    simp only [slidingMulti, beforeScan]
    split
    · rfl
    · apply ih

theorem findSingleInWindow_all_nc (m : Line) (wstart : Int) :
    ∀ (ws : List Line) (j : Nat), (∀ l ∈ ws, containsTM l m = false) →
      findSingleInWindow m wstart ws j = none := by
  intro ws
  induction ws with
  | nil => intro j _; rfl
  | cons l t ih =>
    intro j h
    simp only [findSingleInWindow, h l (by simp), Bool.false_eq_true, if_false]
    exact ih (j + 1) fun x hx => h x (by simp [hx])

theorem findSingleInWindow_append (m : Line) (wstart : Int) (x : Line) :
    ∀ (ws : List Line) (j : Nat), (∀ l ∈ ws, containsTM l m = false) →
      findSingleInWindow m wstart (ws ++ [x]) j =
        if containsTM x m then
          some (wstart + ((j + ws.length : Nat) : Int), wstart + ((j + ws.length : Nat) : Int))
        else none := by
  intro ws
  induction ws with
  | nil =>
    intro j _
    cases hc : containsTM x m <;> simp [findSingleInWindow, hc]
  | cons l t ih =>
    intro j h
    simp only [List.cons_append, findSingleInWindow, h l (by simp), Bool.false_eq_true,
      if_false, List.length_cons, List.append_eq]
    rw [ih (j + 1) fun x hx => h x (by simp [hx])]
    have harith : j + 1 + t.length = j + (t.length + 1) := by omega
    rw [harith]

theorem beforeScan_single (m : Line) :
    ∀ (rest : List Line) (i : Int) (window : List Line),
      (∀ l ∈ window, containsTM l m = false) →
      beforeScan [m] rest i window = singleScan m true rest i none := by
  intro rest
  induction rest with
  | nil => intro i w _; rfl
  | cons l t ih =>
    intro i w hw
    simp only [beforeScan, singleScan, List.length_cons, List.length_nil]
    by_cases hcap : (w ++ [l]).length > 0 + 1 + 10
    · have hw1 : 1 ≤ w.length := by simp at hcap; omega
      have hdrop : (w ++ [l]).drop 1 = w.drop 1 ++ [l] :=
        List.drop_append_of_le_length hw1
      simp only [hcap, if_true, hdrop]
      have hnc : ∀ x ∈ w.drop 1, containsTM x m = false :=
        fun x hx => hw x (List.mem_of_mem_drop hx)
      rw [show findStartMarkerInWindow (w.drop 1 ++ [l]) [m]
            ((i : Int) - ((w.drop 1 ++ [l]).length : Int) + 1) =
          findSingleInWindow m ((i : Int) - ((w.drop 1 ++ [l]).length : Int) + 1)
            (w.drop 1 ++ [l]) 0 from rfl]
      rw [findSingleInWindow_append m _ l (w.drop 1) 0 hnc]
      by_cases hc : containsTM l m = true
      · simp only [hc, if_true]
        have harith : (i : Int) - (((w.drop 1 ++ [l]).length : Nat) : Int) + 1 +
            (((0 + (w.drop 1).length : Nat) : Int)) = i := by
          simp only [List.length_append, List.length_cons, List.length_nil, Nat.zero_add]
          push_cast
          ring
        rw [harith]
      · simp only [hc, Bool.false_eq_true, if_false]
        exact ih (i + 1) _ fun x hx => (List.mem_append.1 hx).elim (hnc x)
          (fun hxl => by rw [List.mem_singleton.1 hxl]; simpa using hc)
    · simp only [hcap, if_false]
      rw [show findStartMarkerInWindow (w ++ [l]) [m]
            ((i : Int) - (((w ++ [l]).length : Nat) : Int) + 1) =
          findSingleInWindow m ((i : Int) - (((w ++ [l]).length : Nat) : Int) + 1)
            (w ++ [l]) 0 from rfl]
      rw [findSingleInWindow_append m _ l w 0 hw]
      by_cases hc : containsTM l m = true
      · simp only [hc, if_true]
        have harith : (i : Int) - (((w ++ [l]).length : Nat) : Int) + 1 +
            (((0 + w.length : Nat) : Int)) = i := by
          simp only [List.length_append, List.length_cons, List.length_nil, Nat.zero_add]
          push_cast
          ring
        rw [harith]
      · simp only [hc, Bool.false_eq_true, if_false]
        exact ih (i + 1) _ fun x hx => (List.mem_append.1 hx).elim (hw x)
          (fun hxl => by rw [List.mem_singleton.1 hxl]; simpa using hc)

theorem findMarker_wrap (lines markers : List Line) (s e : Int) (rf : Bool)
    (hm : markers ≠ []) :
    findMarkerWithSlidingWindow lines markers s e rf =
      wrapRes
        (if markers.length = 1 then
          singleScan (markers.headD []) rf
            ((lines.drop s.toNat).take (e - s + 1).toNat) s none
        else
          slidingMulti markers (markers.length + 10) rf
            ((lines.drop s.toNat).take (e - s + 1).toNat) s [] none)
        .markerNotFound := by
  unfold findMarkerWithSlidingWindow wrapRes
  rw [if_neg hm]

theorem scan_core (markers : List Line) (hm : markers ≠ []) (rest : List Line) (i : Int) :
    (if markers.length = 1 then singleScan (markers.headD []) true rest i none
     else slidingMulti markers (markers.length + 10) true rest i [] none) =
      beforeScan markers rest i [] := by
  by_cases h1 : markers.length = 1
  · obtain ⟨m, rfl⟩ := List.length_eq_one.1 h1
    rw [if_pos h1]
    exact (beforeScan_single m rest i [] (by simp)).symm
  · rw [if_neg h1, slidingMulti_true_eq_beforeScan]

/-- C8 (amended): for every file, every NON-EMPTY marker sequence, and every
`searchFromLine >= -1`, the `before_first_appear` strategy returns the same
`(firstLine, lastLine)` result as `after_first_appear` and fails exactly when
it fails, for both the init-section and the print-section searches.  (With
an empty marker sequence `before_first_appear` succeeds with `(-1, -1)`
while `after_first_appear` rejects, and with `searchFromLine <= -2`
`after_first_appear` rejects the out-of-bounds start while
`before_first_appear` searches from the top, so those cases are excluded.) -/
theorem claim_C8_strategy_equivalence_amended (lines markers : List Line)
    (searchFromLine : Int) (hm : markers ≠ []) (hs : -1 ≤ searchFromLine) :
    sameOutcome (afterFirstFindInitSectionPosition lines markers)
      (beforeFindInitSectionPosition lines markers) ∧
    sameOutcome (afterFirstFindPrintSectionPosition lines markers searchFromLine)
      (beforeFindPrintSectionPosition lines markers searchFromLine) := by
  constructor
  · unfold afterFirstFindInitSectionPosition FindFirstMarkerFromStart
    rw [findMarker_wrap lines markers 0 ((lines.length : Int) - 1) true hm]
    have hslice : (lines.drop (0 : Int).toNat).take
        (((lines.length : Int) - 1 - 0 + 1)).toNat = lines := by
      have harith : (((lines.length : Int) - 1 - 0 + 1)).toNat = lines.length := by omega
      rw [harith]
      simp
    rw [hslice, scan_core markers hm lines 0]
    rw [show beforeFindInitSectionPosition lines markers =
      wrapRes (beforeScan markers lines 0 []) .startMarkerNotFound from rfl]
    exact sameOutcome_wrapRes _ _ _
  · unfold afterFirstFindPrintSectionPosition FindFirstMarkerFromLine
    by_cases hb : searchFromLine + 1 < 0 ∨ (lines.length : Int) ≤ searchFromLine + 1
    · rw [if_pos hb]
      apply sameOutcome_of_errors
      · intro r h; cases h
      · intro r h
        have hlen : (lines.length : Int) ≤ searchFromLine + 1 := by
          rcases hb with hb1 | hb2
          · omega
          · exact hb2
        have hk : min (searchFromLine + 1).toNat lines.length = lines.length := by omega
        rw [show beforeFindPrintSectionPosition lines markers searchFromLine =
          wrapRes (beforeScan markers
            (lines.drop (min (searchFromLine + 1).toNat lines.length))
            ((min (searchFromLine + 1).toNat lines.length : Nat) : Int) [])
            .endMarkerNotFound from rfl, hk] at h
        rw [List.drop_length] at h
        cases h
    · rw [if_neg hb]
      push_neg at hb
      rw [findMarker_wrap lines markers (searchFromLine + 1) ((lines.length : Int) - 1)
        true hm]
      have hslice : (lines.drop (searchFromLine + 1).toNat).take
          (((lines.length : Int) - 1 - (searchFromLine + 1) + 1)).toNat =
          lines.drop (searchFromLine + 1).toNat := by
        have harith : (((lines.length : Int) - 1 - (searchFromLine + 1) + 1)).toNat =
            (lines.drop (searchFromLine + 1).toNat).length := by
          rw [List.length_drop]
          omega
        rw [harith, List.take_length]
      rw [hslice]
      have hk : min (searchFromLine + 1).toNat lines.length =
          (searchFromLine + 1).toNat := by omega
      have hcast : (((searchFromLine + 1).toNat : Nat) : Int) = searchFromLine + 1 := by
        omega
      rw [show beforeFindPrintSectionPosition lines markers searchFromLine =
        wrapRes (beforeScan markers
          (lines.drop (min (searchFromLine + 1).toNat lines.length))
          ((min (searchFromLine + 1).toNat lines.length : Nat) : Int) [])
          .endMarkerNotFound from rfl, hk, hcast]
      rw [scan_core markers hm (lines.drop (searchFromLine + 1).toNat) (searchFromLine + 1)]
      exact sameOutcome_wrapRes _ _ _

/-- C8 counterexample: with an empty marker sequence, on the one-line file
`X`, `before_first_appear` succeeds with `(-1, -1)` while
`after_first_appear` fails with the no-markers error, so the two strategies
do not return the same result and do not fail together. -/
theorem claim_C8_strategy_equivalence_counterexample :
    beforeFindInitSectionPosition ["X".data] [] = .ok (-1, -1) ∧
    afterFirstFindInitSectionPosition ["X".data] [] = .error .noMarkersProvided ∧
    ¬ sameOutcome (afterFirstFindInitSectionPosition ["X".data] [])
        (beforeFindInitSectionPosition ["X".data] []) := by
  refine ⟨by decide, by decide, ?_⟩
  intro hsame
  have h := (hsame (-1, -1)).2 (by decide)
  exact absurd h (by decide)

theorem claim_C8_strategy_equivalence_amended_witness :
    sameOutcome (afterFirstFindInitSectionPosition c1Lines ["START".data])
      (beforeFindInitSectionPosition c1Lines ["START".data]) ∧
    sameOutcome (afterFirstFindPrintSectionPosition c1Lines ["START".data] 1)
      (beforeFindPrintSectionPosition c1Lines ["START".data] 1) :=
  claim_C8_strategy_equivalence_amended c1Lines ["START".data] 1
    (by decide) (by decide)

theorem joinNl_append (xs ys : List Line) : joinNl (xs ++ ys) = joinNl xs ++ joinNl ys := by
  simp [joinNl]

/-- C4 counterexample: on the five-line input whose header split is a
no-op, with iterations 1 and a template rendering the empty string (marker
positions as located by the strategies), the output is not byte-identical
to the input: the empty render is emitted as one extra blank line. -/
theorem claim_C4_roundtrip_counterexample :
    (∀ l ∈ c1Lines, processLineWithMarkerSplit l ["START".data] = [l]) ∧
    afterFirstFindInitSectionPosition c1Lines ["START".data] = .ok (1, 1) ∧
    afterFirstFindPrintSectionPosition c1Lines ["END".data] 1 = .ok (3, 3) ∧
    processFileBytes c1Lines c1Pos 1 ["START".data] (fun _ => []) ≠ joinNl c1Lines := by
  refine ⟨?_, by decide, by decide, by decide⟩
  decide

/-- C4 (amended): running the transformation with `Iterations = 1` and an
empty template on an input whose header marker-comment split is a no-op
yields the input with a single blank line inserted right after the
end-marker range - the render whose entire output is one empty line is
emitted verbatim - rather than a byte-identical copy. -/
theorem claim_C4_roundtrip_amended (lines : List Line) (pos : MarkerPositions)
    (endInitMarkers : List Line) (render : Int → Line)
    (h0 : 0 ≤ pos.endInitSectionLastLine)
    (h1 : pos.endInitSectionLastLine < pos.endPrintSectionFirstLine)
    (h2 : pos.endPrintSectionFirstLine ≤ pos.endPrintSectionLastLine)
    (hsplit : ∀ l ∈ lines.take (pos.endInitSectionLastLine + 1).toNat,
      processLineWithMarkerSplit l endInitMarkers = [l])
    (hrender : render 1 = []) :
    processFileEmit lines pos 1 endInitMarkers render =
      lines.take (pos.endPrintSectionLastLine + 1).toNat ++ [[]] ++
        lines.drop (pos.endPrintSectionLastLine + 1).toNat ∧
    processFileBytes lines pos 1 endInitMarkers render =
      joinNl (lines.take (pos.endPrintSectionLastLine + 1).toNat) ++ ['\n'] ++
        joinNl (lines.drop (pos.endPrintSectionLastLine + 1).toNat) := by
  have hmain : processFileEmit lines pos 1 endInitMarkers render =
      lines.take (pos.endPrintSectionLastLine + 1).toNat ++ [[]] ++
        lines.drop (pos.endPrintSectionLastLine + 1).toNat := by
    have hd := (processFileEmit_decomposition lines pos 1 endInitMarkers render
      (by omega) h0 h1 h2).1
    rw [hd]
    have hone : (1 : Int).toNat = 1 := rfl
    have hr1 : List.range 1 = [0] := rfl
    rw [hone, hr1, List.map_cons, List.map_nil, List.flatten_cons,
      List.flatten_nil, List.append_nil]
    have hh : ((lines.take (pos.endInitSectionLastLine + 1).toNat).map
        fun l => processLineWithMarkerSplit l endInitMarkers).flatten =
        lines.take (pos.endInitSectionLastLine + 1).toNat := by
      rw [List.map_congr_left hsplit]
      exact flatten_map_singleton _
    have hg : streamGeneratedContent (render (((0 : Nat) : Int) + 1)) = [[]] := by
      have hcast : ((0 : Nat) : Int) + 1 = 1 := by omega
      rw [hcast, hrender]
      rfl
    rw [hh, hg]
    have hAB : (pos.endInitSectionLastLine + 1).toNat +
        (pos.endPrintSectionFirstLine - pos.endInitSectionLastLine - 1).toNat =
        pos.endPrintSectionFirstLine.toNat := by omega
    have e1 : lines.take (pos.endPrintSectionLastLine + 1).toNat =
        (lines.take (pos.endInitSectionLastLine + 1).toNat ++
          (lines.drop (pos.endInitSectionLastLine + 1).toNat).take
            (pos.endPrintSectionFirstLine - pos.endInitSectionLastLine - 1).toNat) ++
          (lines.drop pos.endPrintSectionFirstLine.toNat).take
            (pos.endPrintSectionLastLine - pos.endPrintSectionFirstLine + 1).toNat := by
      have h3 : (pos.endPrintSectionLastLine + 1).toNat =
          ((pos.endInitSectionLastLine + 1).toNat +
            (pos.endPrintSectionFirstLine - pos.endInitSectionLastLine - 1).toNat) +
            (pos.endPrintSectionLastLine - pos.endPrintSectionFirstLine + 1).toNat := by
        omega
      rw [h3, List.take_add, List.take_add, hAB]
    rw [e1]
    simp [List.append_assoc]
  refine ⟨hmain, ?_⟩
  show joinNl (processFileEmit lines pos 1 endInitMarkers render) = _
  rw [hmain, joinNl_append, joinNl_append]
  rfl

theorem claim_C4_roundtrip_amended_witness :
    processFileEmit c1Lines c1Pos 1 ["START".data] (fun _ => []) =
      c1Lines.take 4 ++ [[]] ++ c1Lines.drop 4 := by
  have h := (claim_C4_roundtrip_amended c1Lines c1Pos ["START".data] (fun _ => [])
    (by decide) (by decide) (by decide) (by decide) rfl).1
  simpa using h

/-! ### Assertion checking - modelled from the spec.  The assertion pass
(spec 4.5 Pass 3, 6, 7) is specified but not present in the source tree
under src/; the definitions below follow the spec's words. -/

/-- Modelled from the spec: the twelve coordinate-field names an assertion
may reference (spec 6, printer definition document format). -/
inductive FieldName
  | firstPrintX
  | firstPrintY
  | firstPrintZ
  | lastPrintX
  | lastPrintY
  | lastPrintZ
  | averagePrintX
  | averagePrintY
  | minPrintX
  | minPrintY
  | maxPrintX
  | maxPrintY
deriving DecidableEq, Repr

/-- A scalar inside an assertion bounds list of the printer definition
document. -/
inductive TomlValue
  | num (q : ℚ)
  | str (s : Line)
deriving DecidableEq, Repr

/-- Modelled from the spec: the Marker Positions record of spec 3 with the
aggregate fields (`averagePrintX/Y`, `minPrintX/Y`, `maxPrintX/Y`) that the
assertion pass reads; the aggregates are absent from the source tree. -/
structure FullPositions where
  firstPrintX : ℚ
  firstPrintY : ℚ
  firstPrintZ : ℚ
  lastPrintX : ℚ
  lastPrintY : ℚ
  lastPrintZ : ℚ
  averagePrintX : ℚ
  averagePrintY : ℚ
  minPrintX : ℚ
  minPrintY : ℚ
  maxPrintX : ℚ
  maxPrintY : ℚ
deriving DecidableEq, Repr

/-- Looking up the named field on the computed positions. -/
def fieldValue (p : FullPositions) : FieldName → ℚ
  | .firstPrintX => p.firstPrintX
  | .firstPrintY => p.firstPrintY
  | .firstPrintZ => p.firstPrintZ
  | .lastPrintX => p.lastPrintX
  | .lastPrintY => p.lastPrintY
  | .lastPrintZ => p.lastPrintZ
  | .averagePrintX => p.averagePrintX
  | .averagePrintY => p.averagePrintY
  | .minPrintX => p.minPrintX
  | .minPrintY => p.minPrintY
  | .maxPrintX => p.maxPrintX
  | .maxPrintY => p.maxPrintY

/-- The assertion pass failure modes (spec 7). -/
inductive AssertError
  | assertionFailed (f : FieldName) (value lo hi : ℚ)
  | malformedAssertion (f : FieldName)
deriving DecidableEq, Repr

/-- Modelled from the spec: one assertion entry (spec 4.5 Pass 3): bounds
that are not exactly two numeric values fail with `MalformedAssertion`; a
value outside `[min, max]` fails with `AssertionFailed` naming the field,
the value and the range. -/
def checkAssertion (p : FullPositions) (f : FieldName) (bounds : List TomlValue) :
    Except AssertError Unit :=
  match bounds with
  | [.num lo, .num hi] =>
    let v := fieldValue p f
    if v < lo ∨ hi < v then .error (.assertionFailed f v lo hi) else .ok ()
  | _ => .error (.malformedAssertion f)

/-- Modelled from the spec: the assertion pass over every entry of the
definition's assertion map. -/
def checkAssertions (p : FullPositions) :
    List (FieldName × List TomlValue) → Except AssertError Unit
  | [] => .ok ()
  | (f, b) :: rest =>
    match checkAssertion p f b with
    | .ok _ => checkAssertions p rest
    | .error e => .error e

/-- Modelled from the spec: the transformation around pass 3 - output is
produced only after every assertion passed (spec 4.5, 8 property 6). -/
def transformWithAssertions (p : FullPositions)
    (asserts : List (FieldName × List TomlValue)) (output : List Line) :
    Except AssertError (List Line) := do
  let _ ← checkAssertions p asserts
  pure output

theorem checkAssertions_append_ok (p : FullPositions)
    (pre xs : List (FieldName × List TomlValue))
    (hpre : ∀ e ∈ pre, checkAssertion p e.1 e.2 = .ok ()) :
    checkAssertions p (pre ++ xs) = checkAssertions p xs := by
  induction pre with
  | nil => rfl
  | cons a t ih =>
    obtain ⟨f, b⟩ := a
    simp only [List.cons_append, checkAssertions, hpre ⟨f, b⟩ (by simp)]
    exact ih fun e he => hpre e (by simp [he])

theorem checkAssertion_malformed (p : FullPositions) (f : FieldName)
    (bounds : List TomlValue) (hne : ∀ lo hi, bounds ≠ [.num lo, .num hi]) :
    checkAssertion p f bounds = .error (.malformedAssertion f) := by
  cases bounds with
  | nil => rfl
  | cons b1 t1 =>
    cases t1 with
    | nil => cases b1 <;> rfl
    | cons b2 t2 =>
      cases t2 with
      | nil =>
        cases b1 with
        | num lo =>
          cases b2 with
          | num hi => exact absurd rfl (hne lo hi)
          | str s => rfl
        | str s => rfl
      | cons b3 t3 => cases b1 <;> cases b2 <;> rfl

/-- C2: for every printer definition whose assertions map has an entry for
a coordinate field (all entries before it passing), the transformation
fails with `AssertionFailed` - naming the field, the value, and the range -
whenever the computed position value lies outside the declared `[min, max]`
range, fails with `MalformedAssertion` when the bounds are not exactly two
numeric values, and produces no output the caller may keep in either case. -/
theorem claim_C2_assertion_check (p : FullPositions)
    (pre rest : List (FieldName × List TomlValue)) (f : FieldName)
    (bounds : List TomlValue) (output : List Line)
    (hpre : ∀ e ∈ pre, checkAssertion p e.1 e.2 = .ok ()) :
    (∀ lo hi, bounds = [.num lo, .num hi] →
      (fieldValue p f < lo ∨ hi < fieldValue p f) →
      transformWithAssertions p (pre ++ (f, bounds) :: rest) output =
        .error (.assertionFailed f (fieldValue p f) lo hi)) ∧
    ((∀ lo hi, bounds ≠ [.num lo, .num hi]) →
      transformWithAssertions p (pre ++ (f, bounds) :: rest) output =
        .error (.malformedAssertion f)) ∧
    (∀ e, checkAssertions p (pre ++ (f, bounds) :: rest) = .error e →
      ∀ out, transformWithAssertions p (pre ++ (f, bounds) :: rest) output ≠ .ok out) := by
  refine ⟨?_, ?_, ?_⟩
  · intro lo hi hb hout
    subst hb
    unfold transformWithAssertions
    rw [checkAssertions_append_ok p pre _ hpre]
    simp only [checkAssertions, checkAssertion, hout, if_pos]
    rfl
  · intro hne
    unfold transformWithAssertions
    rw [checkAssertions_append_ok p pre _ hpre]
    simp only [checkAssertions, checkAssertion_malformed p f bounds hne]
    rfl
  · intro e he out
    unfold transformWithAssertions
    rw [he]
    intro h
    cases h

theorem claim_C2_assertion_check_witness :
    transformWithAssertions ⟨0, 0, 0, 0, 0, 10, 0, 0, 0, 0, 0, 0⟩
      [(.lastPrintZ, [.num 0, .num 5])] ["G1".data] =
      .error (.assertionFailed .lastPrintZ 10 0 5) :=
  (claim_C2_assertion_check ⟨0, 0, 0, 0, 0, 10, 0, 0, 0, 0, 0, 0⟩ [] []
      .lastPrintZ [.num 0, .num 5] ["G1".data] (by simp)).1 0 5 rfl (by decide)

/-! ### Average/min/max aggregation - modelled from the spec.  The
aggregates of spec 3 and 4.3 step 4 (`averagePrintX/Y`, `minPrintX/Y`,
`maxPrintX/Y`) are absent from the source tree under src/; the definitions
below follow the spec's words, reusing the source's `parseGCodeLine` and
qualifying-move predicate. -/

/-- Exact rational addition through `mkRat`, kernel-reducible. -/
def ratAdd (a b : ℚ) : ℚ :=
  mkRat (a.num * (b.den : Int) + b.num * (a.den : Int)) (a.den * b.den)

theorem ratAdd_eq (a b : ℚ) : ratAdd a b = a + b := by
  have ha : ((a.den : ℚ)) ≠ 0 := Nat.cast_ne_zero.mpr a.den_nz
  have hb : ((b.den : ℚ)) ≠ 0 := Nat.cast_ne_zero.mpr b.den_nz
  unfold ratAdd
  rw [Rat.mkRat_eq_div]
  push_cast
  conv_rhs => rw [← Rat.num_div_den a, ← Rat.num_div_den b]
  rw [div_add_div _ _ ha hb]
  ring_nf

/-- Exact division of a rational by a natural count, kernel-reducible. -/
def ratDivNat (a : ℚ) (n : Nat) : ℚ := mkRat a.num (a.den * n)

theorem ratDivNat_eq (a : ℚ) (n : Nat) : ratDivNat a n = a / (n : ℚ) := by
  unfold ratDivNat
  rw [Rat.mkRat_eq_div]
  push_cast
  rw [div_mul_eq_div_div, Rat.num_div_den]

def minOpt (o : Option ℚ) (x : ℚ) : ℚ :=
  match o with
  | none => x
  | some v => min v x

def maxOpt (o : Option ℚ) (x : ℚ) : ℚ :=
  match o with
  | none => x
  | some v => max v x

/-- Modelled from the spec: the X/Y aggregation state of the coordinate
extractor (spec 4.3 step 4), tracked independently per axis. -/
structure AggState where
  xSum : ℚ
  xCount : Nat
  xMin : Option ℚ
  xMax : Option ℚ
  ySum : ℚ
  yCount : Nat
  yMin : Option ℚ
  yMax : Option ℚ
deriving DecidableEq, Repr

def initAggState : AggState := ⟨0, 0, none, none, 0, 0, none, none⟩

/-- Modelled from the spec: for a qualifying print move, if X is present
add it to the X-sum, increment the X-count and update X-min/X-max; mirror
for Y independently (spec 4.3 step 4). -/
def aggStep (st : AggState) (l : Line) : AggState :=
  if qualifies l then
    let st1 :=
      match lineX l with
      | some x =>
        { st with
          xSum := ratAdd st.xSum x
          xCount := st.xCount + 1
          xMin := some (minOpt st.xMin x)
          xMax := some (maxOpt st.xMax x) }
      | none => st
    match lineY l with
    | some y =>
      { st1 with
        ySum := ratAdd st1.ySum y
        yCount := st1.yCount + 1
        yMin := some (minOpt st1.yMin y)
        yMax := some (maxOpt st1.yMax y) }
    | none => st1
  else st

/-- Modelled from the spec: the aggregation pass over the file. -/
def aggLoop (lines : List Line) : AggState := lines.foldl aggStep initAggState

/-- Modelled from the spec: the average of a tracked axis; zero when the
coordinate was never observed. -/
def averageOf (sum : ℚ) (count : Nat) : ℚ :=
  if count = 0 then 0 else ratDivNat sum count

/-- Numeric invariant of one aggregation axis. -/
def axisInv (sum : ℚ) (count : Nat) (lo hi : Option ℚ) : Prop :=
  (count = 0 → sum = 0 ∧ lo = none ∧ hi = none) ∧
  (count ≠ 0 → ∃ a b, lo = some a ∧ hi = some b ∧ a ≤ b ∧
    (count : ℚ) * a ≤ sum ∧ sum ≤ (count : ℚ) * b)

theorem axisInv_step (sum : ℚ) (count : Nat) (lo hi : Option ℚ) (x : ℚ)
    (h : axisInv sum count lo hi) :
    axisInv (ratAdd sum x) (count + 1) (some (minOpt lo x)) (some (maxOpt hi x)) := by
  obtain ⟨h0, hpos⟩ := h
  constructor
  · intro h; omega
  · intro _
    rcases Nat.eq_zero_or_pos count with hc | hc
    · obtain ⟨hs, hlo, hhi⟩ := h0 hc
      subst hs hlo hhi hc
      refine ⟨x, x, rfl, rfl, le_refl x, ?_, ?_⟩ <;>
        simp [ratAdd_eq, minOpt, maxOpt]
    · obtain ⟨a, b, hlo, hhi, hab, hla, hlb⟩ := hpos (by omega)
      subst hlo hhi
      refine ⟨min a x, max b x, rfl, rfl, ?_, ?_, ?_⟩
      · exact le_trans (min_le_left a x) (le_trans hab (le_max_left b x))
      · rw [ratAdd_eq]
        have e1 : ((count + 1 : Nat) : ℚ) * min a x =
            (count : ℚ) * min a x + min a x := by push_cast; ring
        rw [e1]
        have e2 : (count : ℚ) * min a x ≤ (count : ℚ) * a :=
          mul_le_mul_of_nonneg_left (min_le_left a x) (by positivity)
        have e3 : min a x ≤ x := min_le_right a x
        linarith
      · rw [ratAdd_eq]
        have e1 : ((count + 1 : Nat) : ℚ) * max b x =
            (count : ℚ) * max b x + max b x := by push_cast; ring
        rw [e1]
        have e2 : (count : ℚ) * b ≤ (count : ℚ) * max b x :=
          mul_le_mul_of_nonneg_left (le_max_left b x) (by positivity)
        have e3 : x ≤ max b x := le_max_right b x
        linarith

/-- The two axis invariants for a full aggregation state. -/
def aggInv (st : AggState) : Prop :=
  axisInv st.xSum st.xCount st.xMin st.xMax ∧ axisInv st.ySum st.yCount st.yMin st.yMax

theorem aggInv_step (st : AggState) (l : Line) (h : aggInv st) : aggInv (aggStep st l) := by
  obtain ⟨hx, hy⟩ := h
  unfold aggStep
  by_cases hq : qualifies l = true
  · simp only [hq, if_true]
    cases hlx : lineX l with
    | none =>
      cases hly : lineY l with
      | none => exact ⟨hx, hy⟩
      | some y => exact ⟨hx, axisInv_step _ _ _ _ y hy⟩
    | some x =>
      cases hly : lineY l with
      | none => exact ⟨axisInv_step _ _ _ _ x hx, hy⟩
      | some y => exact ⟨axisInv_step _ _ _ _ x hx, axisInv_step _ _ _ _ y hy⟩
  · simp only [hq, Bool.false_eq_true, if_false]
    exact ⟨hx, hy⟩

theorem aggInv_foldl (st : AggState) (h : aggInv st) :
    ∀ lines : List Line, aggInv (lines.foldl aggStep st)
  | [] => h
  | l :: rest => aggInv_foldl (aggStep st l) (aggInv_step st l h) rest

theorem aggLoop_inv (lines : List Line) : aggInv (aggLoop lines) := by
  have hinit : aggInv initAggState := by
    constructor <;> exact ⟨fun _ => ⟨rfl, rfl, rfl⟩, fun h => absurd rfl h⟩
  exact aggInv_foldl initAggState hinit lines

theorem aggStep_xCount_le (st : AggState) (l : Line) : st.xCount ≤ (aggStep st l).xCount := by
  unfold aggStep
  by_cases hq : qualifies l = true <;>
    cases hlx : lineX l <;>
      cases hly : lineY l <;>
        simp [hq, hlx, hly]

theorem aggStep_yCount_le (st : AggState) (l : Line) : st.yCount ≤ (aggStep st l).yCount := by
  unfold aggStep
  by_cases hq : qualifies l = true <;>
    cases hlx : lineX l <;>
      cases hly : lineY l <;>
        simp [hq, hlx, hly]

theorem foldl_xCount_le (st : AggState) :
    ∀ lines : List Line, st.xCount ≤ (lines.foldl aggStep st).xCount
  | [] => le_refl _
  | l :: rest => le_trans (aggStep_xCount_le st l) (foldl_xCount_le (aggStep st l) rest)

theorem foldl_yCount_le (st : AggState) :
    ∀ lines : List Line, st.yCount ≤ (lines.foldl aggStep st).yCount
  | [] => le_refl _
  | l :: rest => le_trans (aggStep_yCount_le st l) (foldl_yCount_le (aggStep st l) rest)

theorem aggLoop_xCount_pos (lines : List Line)
    (h : ∃ l ∈ lines, qualifies l = true ∧ lineX l ≠ none) :
    (aggLoop lines).xCount ≠ 0 := by
  obtain ⟨l, hl, hq, hx⟩ := h
  obtain ⟨pre, post, rfl⟩ := List.append_of_mem hl
  unfold aggLoop
  rw [List.foldl_append, List.foldl_cons]
  have h1 : 1 ≤ (aggStep (pre.foldl aggStep initAggState) l).xCount := by
    unfold aggStep
    cases hlx : lineX l with
    | none => exact absurd hlx hx
    | some x => cases hly : lineY l <;> simp [hq, hlx, hly]
  have h2 := foldl_xCount_le (aggStep (pre.foldl aggStep initAggState) l) post
  omega

theorem aggLoop_yCount_pos (lines : List Line)
    (h : ∃ l ∈ lines, qualifies l = true ∧ lineY l ≠ none) :
    (aggLoop lines).yCount ≠ 0 := by
  obtain ⟨l, hl, hq, hy⟩ := h
  obtain ⟨pre, post, rfl⟩ := List.append_of_mem hl
  unfold aggLoop
  rw [List.foldl_append, List.foldl_cons]
  have h1 : 1 ≤ (aggStep (pre.foldl aggStep initAggState) l).yCount := by
    unfold aggStep
    cases hly : lineY l with
    | none => exact absurd hly hy
    | some y => cases hlx : lineX l <;> simp [hq, hlx, hly]
  have h2 := foldl_yCount_le (aggStep (pre.foldl aggStep initAggState) l) post
  omega

theorem axisInv_avg_bounds (sum : ℚ) (count : Nat) (lo hi : Option ℚ)
    (h : axisInv sum count lo hi) (hc : count ≠ 0) :
    lo.getD 0 ≤ averageOf sum count ∧ averageOf sum count ≤ hi.getD 0 := by
  obtain ⟨-, hpos⟩ := h
  obtain ⟨a, b, hlo, hhi, -, hla, hlb⟩ := hpos hc
  subst hlo hhi
  have hcq : (0 : ℚ) < (count : ℚ) := by
    have : 0 < count := Nat.pos_of_ne_zero hc
    exact_mod_cast this
  unfold averageOf
  rw [if_neg hc, ratDivNat_eq]
  constructor
  · rw [Option.getD_some, le_div_iff hcq]
    linarith
  · rw [Option.getD_some, div_le_iff hcq]
    linarith

/-- C3: coordinate extraction (as specified) aggregates `averagePrintX/Y`,
`minPrintX/Y` and `maxPrintX/Y` over all qualifying print moves with X and
Y tracked independently, and for every input containing at least one
qualifying print move with an X (respectively Y),
`MinPrintX <= AveragePrintX <= MaxPrintX` (respectively for Y). -/
theorem claim_C3_aggregate_bounds (lines : List Line) :
    ((∃ l ∈ lines, qualifies l = true ∧ lineX l ≠ none) →
      (aggLoop lines).xMin.getD 0 ≤
          averageOf (aggLoop lines).xSum (aggLoop lines).xCount ∧
        averageOf (aggLoop lines).xSum (aggLoop lines).xCount ≤
          (aggLoop lines).xMax.getD 0) ∧
    ((∃ l ∈ lines, qualifies l = true ∧ lineY l ≠ none) →
      (aggLoop lines).yMin.getD 0 ≤
          averageOf (aggLoop lines).ySum (aggLoop lines).yCount ∧
        averageOf (aggLoop lines).ySum (aggLoop lines).yCount ≤
          (aggLoop lines).yMax.getD 0) := by
  obtain ⟨hx, hy⟩ := aggLoop_inv lines
  constructor
  · intro h
    exact axisInv_avg_bounds _ _ _ _ hx (aggLoop_xCount_pos lines h)
  · intro h
    exact axisInv_avg_bounds _ _ _ _ hy (aggLoop_yCount_pos lines h)

theorem claim_C3_aggregate_bounds_witness :
    (∃ l ∈ linesS4, qualifies l = true ∧ lineX l ≠ none) ∧
    (aggLoop linesS4).xMin.getD 0 ≤
        averageOf (aggLoop linesS4).xSum (aggLoop linesS4).xCount ∧
      averageOf (aggLoop linesS4).xSum (aggLoop linesS4).xCount ≤
        (aggLoop linesS4).xMax.getD 0 :=
  ⟨by decide, (claim_C3_aggregate_bounds linesS4).1 (by decide)⟩

/-! ### Multiline marker matching: witness predicate and kernel lemmas -/

/-- Gap check with fuel `d`: the `d` lines from `p` on are skippable and do
not contain the pending marker `m`. -/
def gapRun (lines : List Line) (m : Line) : Nat → Nat → Bool
  | _, 0 => true
  | p, d + 1 =>
    skippableLine (lines.getD p []) && !containsTM (lines.getD p []) m &&
      gapRun lines m (p + 1) d

/-- The lines of `[p, k)` are skippable and do not contain `m`. -/
def gapOK (lines : List Line) (p k : Nat) (m : Line) : Bool := gapRun lines m p (k - p)

/-- An interleaved match of the marker sequence at positions `ks`, starting
the scan at `p`: each marker entry is contained (after trimming) in the
line at its position, and the lines strictly between consecutive positions
are skippable comment or blank lines that do not contain the next expected
entry. -/
def chainFrom (lines : List Line) : Nat → List Line → List Nat → Bool
  | _, [], [] => true
  | p, m :: ms, k :: ks =>
    decide (p ≤ k) && decide (k < lines.length) && containsTM (lines.getD k []) m &&
      gapOK lines p k m && chainFrom lines (k + 1) ms ks
  | _, [], _ :: _ => false
  | _, _ :: _, [] => false

/-- A full interleaved-match witness: the scan starts at the first matched
position. -/
def chainWitness (lines markers : List Line) (ks : List Nat) : Bool :=
  match ks with
  | [] => false
  | k :: _ => chainFrom lines k markers ks

theorem getD_of_drop_cons {lines ws : List Line} {l : Line} {i : Nat}
    (h : lines.drop i = l :: ws) : lines.getD i [] = l := by
  have h0 : (lines.drop i)[0]? = some l := by rw [h]; simp
  rw [List.getElem?_drop] at h0
  simp only [Nat.add_zero] at h0
  simp [List.getD, List.get?_eq_getElem?, h0]

theorem drop_succ_of_drop_cons {α : Type} {lines ws : List α} {l : α} {i : Nat}
    (h : lines.drop i = l :: ws) : lines.drop (i + 1) = ws := by
  have h1 : lines.drop (i + 1) = (lines.drop i).drop 1 := by
    rw [List.drop_drop, Nat.add_comm]
  rw [h1, h]
  rfl

theorem drop_len_lt {α : Type} {lines ws : List α} {l : α} {i : Nat}
    (h : lines.drop i = l :: ws) : i < lines.length := by
  by_contra hle
  rw [List.drop_eq_nil_of_le (by omega)] at h
  cases h

theorem chainFrom_shapes (lines : List Line) (p : Nat) (ms : List Line) (ks : List Nat)
    (h : chainFrom lines p ms ks = true) : ms.length = ks.length := by
  induction ms generalizing p ks with
  | nil => cases ks with
    | nil => rfl
    | cons k t => cases h
  | cons m mt ih =>
    cases ks with
    | nil => cases h
    | cons k kt =>
      simp only [chainFrom, Bool.and_eq_true] at h
      simp only [List.length_cons, ih (k + 1) kt h.2]

theorem chainFrom_gap_extend (lines : List Line) (p : Nat) (m : Line) (ms : List Line)
    (k : Nat) (ks : List Nat)
    (h : chainFrom lines (p + 1) (m :: ms) (k :: ks) = true)
    (hskip : skippableLine (lines.getD p []) = true)
    (hnc : containsTM (lines.getD p []) m = false) :
    chainFrom lines p (m :: ms) (k :: ks) = true := by
  simp only [chainFrom, Bool.and_eq_true, decide_eq_true_eq] at h ⊢
  obtain ⟨⟨⟨⟨hpk, hklen⟩, hcont⟩, hgap⟩, hrest⟩ := h
  refine ⟨⟨⟨⟨by omega, hklen⟩, hcont⟩, ?_⟩, hrest⟩
  unfold gapOK at hgap ⊢
  have hd : k - p = (k - (p + 1)) + 1 := by omega
  rw [hd]
  unfold gapRun
  simp only [hskip, hnc, Bool.not_false, Bool.and_true, Bool.true_and, hgap]

theorem tryMatchLoop_sound (wstart : Int) (hws : 0 ≤ wstart) (window : List Line) :
    ∀ (ws ms : List Line) (widx : Nat) (first last : Int) (b e : Int),
      ws = window.drop widx →
      tryMatchLoop wstart ws ms widx first last = some (b, e) →
      (ms = [] ∧ b = first ∧ e = last) ∨
      (∃ ks : List Nat, ks ≠ [] ∧ chainFrom window widx ms ks = true ∧
        b = (if first = -1 then wstart + ((ks.headD 0 : Nat) : Int) else first) ∧
        e = wstart + ((ks.getLastD 0 : Nat) : Int)) := by
  intro ws
  induction ws with
  | nil =>
    intro ms widx first last b e hws2 h
    cases ms with
    | nil =>
      simp only [tryMatchLoop, Option.some.injEq, Prod.mk.injEq] at h
      exact Or.inl ⟨rfl, h.1.symm, h.2.symm⟩
    | cons m mt => cases h
  | cons l t ih =>
    intro ms widx first last b e hws2 h
    cases ms with
    | nil =>
      simp only [tryMatchLoop, Option.some.injEq, Prod.mk.injEq] at h
      exact Or.inl ⟨rfl, h.1.symm, h.2.symm⟩
    | cons m mt =>
      have hgetD : window.getD widx [] = l := getD_of_drop_cons hws2.symm
      have hdrop : window.drop (widx + 1) = t := drop_succ_of_drop_cons hws2.symm
      have hwlen : widx < window.length := drop_len_lt hws2.symm
      simp only [tryMatchLoop] at h
      by_cases hc : containsTM l m = true
      · rw [if_pos hc] at h
        rcases ih mt (widx + 1) (if first = -1 then wstart + (widx : Int) else first)
            (wstart + (widx : Int)) b e hdrop.symm h with
          ⟨hmt, hb, he⟩ | ⟨ks, hne, hchain, hb, he⟩
        · subst hmt
          refine Or.inr ⟨[widx], by simp, ?_, ?_, ?_⟩
          · simp only [chainFrom, Bool.and_eq_true, decide_eq_true_eq]
            refine ⟨⟨⟨⟨le_refl widx, hwlen⟩, by rw [hgetD]; exact hc⟩, ?_⟩, trivial⟩
            unfold gapOK
            simp [gapRun]
          · have hne2 : ¬(wstart + (widx : Int) = -1) := by omega
            rw [hb]
            by_cases hf : first = -1
            · simp [hf, if_neg hne2]
            · simp [hf]
          · simpa using he
        · refine Or.inr ⟨widx :: ks, by simp, ?_, ?_, ?_⟩
          · simp only [chainFrom, Bool.and_eq_true, decide_eq_true_eq]
            refine ⟨⟨⟨⟨le_refl widx, hwlen⟩, by rw [hgetD]; exact hc⟩, ?_⟩, hchain⟩
            unfold gapOK
            simp [gapRun]
          · have hne2 : ¬(wstart + (widx : Int) = -1) := by omega
            rw [hb]
            by_cases hf : first = -1
            · simp only [hf, if_true, if_neg hne2, List.headD_cons]
            · simp only [hf, if_false]
          · rw [he]
            cases ks with
            | nil => exact absurd rfl hne
            | cons k0 kt => simp
      · rw [if_neg hc] at h
        by_cases hs : skippableLine l = true
        · rw [if_pos hs] at h
          rcases ih (m :: mt) (widx + 1) first last b e hdrop.symm h with
            ⟨hmt, _, _⟩ | ⟨ks, hne, hchain, hb, he⟩
          · cases hmt
          · cases ks with
            | nil => exact absurd rfl hne
            | cons k0 kt =>
              refine Or.inr ⟨k0 :: kt, by simp, ?_, hb, he⟩
              exact chainFrom_gap_extend window widx m mt k0 kt hchain
                (by rw [hgetD]; exact hs) (by rw [hgetD]; simpa using hc)
        · rw [if_neg hs] at h
          cases h

theorem chainFrom_gap_shrink (lines : List Line) (p k : Nat) (m : Line) (ms : List Line)
    (ks : List Nat) (hlt : p < k)
    (h : chainFrom lines p (m :: ms) (k :: ks) = true) :
    chainFrom lines (p + 1) (m :: ms) (k :: ks) = true ∧
    skippableLine (lines.getD p []) = true ∧ containsTM (lines.getD p []) m = false := by
  simp only [chainFrom, Bool.and_eq_true, decide_eq_true_eq] at h ⊢
  obtain ⟨⟨⟨⟨hpk, hklen⟩, hcont⟩, hgap⟩, hrest⟩ := h
  unfold gapOK at hgap
  have hd : k - p = (k - (p + 1)) + 1 := by omega
  rw [hd] at hgap
  unfold gapRun at hgap
  simp only [Bool.and_eq_true, Bool.not_eq_true'] at hgap
  obtain ⟨⟨hskip, hnc⟩, hrun⟩ := hgap
  exact ⟨⟨⟨⟨⟨by omega, hklen⟩, hcont⟩, hrun⟩, hrest⟩, hskip, hnc⟩

theorem tryMatchLoop_complete (wstart : Int) (window : List Line) :
    ∀ (n widx : Nat) (ms : List Line) (ks : List Nat) (first last : Int),
      window.length - widx = n →
      chainFrom window widx ms ks = true →
      (tryMatchLoop wstart (window.drop widx) ms widx first last).isSome := by
  intro n
  induction n using Nat.strong_induction_on with
  | _ n ih =>
    intro widx ms ks first last hn hchain
    cases ms with
    | nil =>
      cases ks with
      | nil => cases hd : window.drop widx <;> simp [tryMatchLoop]
      | cons k kt => cases hchain
    | cons m mt =>
      cases ks with
      | nil => cases hchain
      | cons k kt =>
        have hhead := hchain
        simp only [chainFrom, Bool.and_eq_true, decide_eq_true_eq] at hhead
        obtain ⟨⟨⟨⟨hpk, hklen⟩, hcont⟩, hgap⟩, hrest⟩ := hhead
        have hwlt : widx < window.length := by omega
        obtain ⟨l, rest, hd⟩ : ∃ l rest, window.drop widx = l :: rest := by
          cases hdd : window.drop widx with
          | nil =>
            have hlen : window.length ≤ widx := by
              by_contra hc2
              have : window.drop widx ≠ [] := by
                intro hnil
                have := List.length_drop widx window ▸ congrArg List.length hnil
                simp at this
                omega
              exact this hdd
            omega
          | cons a b => exact ⟨a, b, rfl⟩
        rw [hd]
        have hgetD : window.getD widx [] = l := getD_of_drop_cons hd
        have hrest' : window.drop (widx + 1) = rest := drop_succ_of_drop_cons hd
        simp only [tryMatchLoop]
        by_cases heq : widx = k
        · have hc : containsTM l m = true := by
            rw [← hgetD, heq]
            exact hcont
          rw [if_pos hc]
          have happ := ih (window.length - (widx + 1)) (by omega) (widx + 1) mt kt
            (if first = -1 then wstart + (widx : Int) else first) (wstart + (widx : Int))
            rfl (by rw [heq]; exact hrest)
          rw [hrest'] at happ
          exact happ
        · have hlt : widx < k := by omega
          obtain ⟨hchain', hskip, hnc⟩ :=
            chainFrom_gap_shrink window widx k m mt kt hlt hchain
          have hcl : containsTM l m = false := by rw [← hgetD]; exact hnc
          have hsl : skippableLine l = true := by rw [← hgetD]; exact hskip
          rw [if_neg (by simp [hcl]), if_pos hsl]
          have happ := ih (window.length - (widx + 1)) (by omega) (widx + 1) (m :: mt)
            (k :: kt) first last rfl hchain'
          rw [hrest'] at happ
          exact happ

theorem multiScan_sound (window markers : List Line) (wstart : Int) :
    ∀ (fuel s0 : Nat) (r : Int × Int),
      multiScan window markers wstart s0 fuel = some r →
      ∃ s, tryMatchMultilineStart window markers s wstart = some r := by
  intro fuel
  induction fuel with
  | zero => intro s0 r h; cases h
  | succ k ih =>
    intro s0 r h
    simp only [multiScan] at h
    cases ht : tryMatchMultilineStart window markers s0 wstart with
    | some r0 =>
      rw [ht] at h
      have h' : some r0 = some r := h
      exact ⟨s0, by rw [ht]; exact h'⟩
    | none =>
      rw [ht] at h
      exact ih (s0 + 1) r h

theorem multiScan_complete (window markers : List Line) (wstart : Int) :
    ∀ (fuel s0 s : Nat), s0 ≤ s → s < s0 + fuel →
      (tryMatchMultilineStart window markers s wstart).isSome →
      (multiScan window markers wstart s0 fuel).isSome := by
  intro fuel
  induction fuel with
  | zero => intro s0 s h1 h2 _; omega
  | succ k ih =>
    intro s0 s h1 h2 h3
    simp only [multiScan]
    cases ht : tryMatchMultilineStart window markers s0 wstart with
    | some r => simp
    | none =>
      rcases Nat.eq_or_lt_of_le h1 with heq | hlt
      · rw [← heq, ht] at h3; cases h3
      · exact ih (s0 + 1) s hlt (by omega) h3

theorem findStartMarkerInWindow_multi (window markers : List Line) (ws : Int)
    (hm : 2 ≤ markers.length) :
    findStartMarkerInWindow window markers ws =
      multiScan window markers ws 0 window.length := by
  cases markers with
  | nil => simp at hm
  | cons a t =>
    cases t with
    | nil => simp at hm
    | cons b t2 => rfl

/-- The start offset of the sliding window after `k` lines were appended,
for window capacity `cap`. -/
def w0cap (cap k : Nat) : Nat := k - min k cap

/-- The sliding window's content after the first `k` lines were fed to it:
the last `min k cap` of the first `k` lines. -/
def windowSpec (lines : List Line) (cap k : Nat) : List Line :=
  (lines.take k).drop (w0cap cap k)

theorem windowSpec_length (lines : List Line) (cap k : Nat) (h : k ≤ lines.length) :
    (windowSpec lines cap k).length = min k cap := by
  unfold windowSpec w0cap
  rw [List.length_drop, List.length_take]
  omega

theorem getD_eq_getElemQ (l : List Line) (n : Nat) : l.getD n [] = (l[n]?).getD [] := by
  simp [List.getD, List.get?_eq_getElem?]

theorem windowSpec_getD (lines : List Line) (cap k j : Nat)
    (hk : k ≤ lines.length) (hj1 : w0cap cap k ≤ j) (hj2 : j < k) :
    (windowSpec lines cap k).getD (j - w0cap cap k) [] = lines.getD j [] := by
  rw [getD_eq_getElemQ, getD_eq_getElemQ]
  unfold windowSpec
  rw [List.getElem?_drop, List.getElem?_take]
  have he : w0cap cap k + (j - w0cap cap k) = j := by omega
  rw [he, if_pos hj2]

theorem windowSpec_getD2 (lines : List Line) (cap K : Nat) (hK : K < lines.length)
    (hcap : 1 ≤ cap) (q : Nat) (hq : q < (windowSpec lines cap (K + 1)).length) :
    (windowSpec lines cap (K + 1)).getD q [] =
      lines.getD (q + w0cap cap (K + 1)) [] := by
  have hlen := windowSpec_length lines cap (K + 1) (by omega)
  have hw : w0cap cap (K + 1) = (K + 1) - min (K + 1) cap := rfl
  rw [hlen] at hq
  have h := windowSpec_getD lines cap (K + 1) (q + w0cap cap (K + 1)) (by omega)
    (by omega) (by omega)
  have he : q + w0cap cap (K + 1) - w0cap cap (K + 1) = q := by omega
  rw [he] at h
  exact h

theorem windowSpec_step (lines : List Line) (cap : Nat) (hcap : 1 ≤ cap) (k : Nat)
    (hk : k < lines.length) :
    (if (windowSpec lines cap k ++ [lines.getD k []]).length > cap then
      (windowSpec lines cap k ++ [lines.getD k []]).drop 1
    else windowSpec lines cap k ++ [lines.getD k []]) = windowSpec lines cap (k + 1) := by
  have hlen : (windowSpec lines cap k).length = min k cap :=
    windowSpec_length lines cap k (by omega)
  have htake : lines.take (k + 1) = lines.take k ++ [lines.getD k []] := by
    rw [List.take_succ]
    congr 1
    rw [List.getElem?_eq_getElem hk]
    rw [List.getD_eq_getElem lines [] hk]
    rfl
  have hw : w0cap cap k = k - min k cap := rfl
  have hw1 : w0cap cap (k + 1) = (k + 1) - min (k + 1) cap := rfl
  by_cases hc : k < cap
  · have hwin : windowSpec lines cap k = lines.take k := by
      unfold windowSpec
      rw [hw]
      have : k - min k cap = 0 := by omega
      rw [this, List.drop_zero]
    have hlen1 : (windowSpec lines cap k ++ [lines.getD k []]).length = min k cap + 1 := by
      rw [List.length_append, hlen]
      rfl
    rw [if_neg (by rw [hlen1]; omega)]
    rw [hwin, ← htake]
    unfold windowSpec
    have : w0cap cap (k + 1) = 0 := by rw [hw1]; omega
    rw [this, List.drop_zero]
  · have hlen1 : (windowSpec lines cap k ++ [lines.getD k []]).length = cap + 1 := by
      rw [List.length_append, hlen]
      simp only [List.length_cons, List.length_nil]
      omega
    rw [if_pos (by rw [hlen1]; omega)]
    have hsplit : windowSpec lines cap k ++ [lines.getD k []] =
        (lines.take (k + 1)).drop (k - cap) := by
      unfold windowSpec
      rw [hw, htake]
      rw [List.drop_append_of_le_length (by rw [List.length_take]; omega)]
      have : k - min k cap = k - cap := by omega
      rw [this]
    rw [hsplit, List.drop_drop]
    unfold windowSpec
    congr 1
    rw [hw1]
    omega

theorem drop_cons_of_lt {α : Type} (lines : List α) (i : Nat) (h : i < lines.length) :
    ∃ l rest, lines.drop i = l :: rest := by
  cases hdd : lines.drop i with
  | nil =>
    have h2 : (lines.drop i).length = lines.length - i := List.length_drop i lines
    rw [hdd] at h2
    simp at h2
    omega
  | cons a b => exact ⟨a, b, rfl⟩

theorem slidingMulti_cons (markers : List Line) (cap : Nat) (rf : Bool)
    (l : Line) (rest : List Line) (i : Int) (window : List Line)
    (acc : Option (Int × Int)) :
    slidingMulti markers cap rf (l :: rest) i window acc =
      match findStartMarkerInWindow
          (if (window ++ [l]).length > cap then (window ++ [l]).drop 1 else window ++ [l])
          markers
          (i - (((if (window ++ [l]).length > cap then (window ++ [l]).drop 1
                  else window ++ [l]).length : Nat) : Int) + 1) with
      | some r =>
        if rf then some r
        else slidingMulti markers cap rf rest (i + 1)
          (if (window ++ [l]).length > cap then (window ++ [l]).drop 1 else window ++ [l])
          (some r)
      | none =>
        slidingMulti markers cap rf rest (i + 1)
          (if (window ++ [l]).length > cap then (window ++ [l]).drop 1 else window ++ [l])
          acc := rfl

theorem slidingMulti_reaches (markers lines : List Line) (cap : Nat) (hcap : 1 ≤ cap)
    (K : Nat) (hK : K < lines.length)
    (hfind : (findStartMarkerInWindow (windowSpec lines cap (K + 1)) markers
      ((K : Int) - ((windowSpec lines cap (K + 1)).length : Int) + 1)).isSome) :
    ∀ (d i : Nat), K - i = d → i ≤ K → ∀ acc,
      (slidingMulti markers cap true (lines.drop i) (i : Int) (windowSpec lines cap i)
        acc).isSome := by
  intro d
  induction d with
  | zero =>
    intro i hd hi acc
    have hik : i = K := by omega
    subst hik
    obtain ⟨l, rest, hdrop⟩ := drop_cons_of_lt lines i (by omega)
    have hl : l = lines.getD i [] := (getD_of_drop_cons hdrop).symm
    rw [hdrop, slidingMulti_cons]
    have hw2 : (if (windowSpec lines cap i ++ [l]).length > cap
        then (windowSpec lines cap i ++ [l]).drop 1
        else windowSpec lines cap i ++ [l]) = windowSpec lines cap (i + 1) := by
      rw [hl]
      exact windowSpec_step lines cap hcap i (by omega)
    rw [hw2]
    cases hf : findStartMarkerInWindow (windowSpec lines cap (i + 1)) markers
        ((i : Int) - ((windowSpec lines cap (i + 1)).length : Int) + 1) with
    | some r => simp
    | none => rw [hf] at hfind; cases hfind
  | succ n ih =>
    intro i hd hi acc
    have hilt : i < lines.length := by omega
    obtain ⟨l, rest, hdrop⟩ := drop_cons_of_lt lines i hilt
    have hl : l = lines.getD i [] := (getD_of_drop_cons hdrop).symm
    rw [hdrop, slidingMulti_cons]
    have hw2 : (if (windowSpec lines cap i ++ [l]).length > cap
        then (windowSpec lines cap i ++ [l]).drop 1
        else windowSpec lines cap i ++ [l]) = windowSpec lines cap (i + 1) := by
      rw [hl]
      exact windowSpec_step lines cap hcap i hilt
    rw [hw2]
    cases hf : findStartMarkerInWindow (windowSpec lines cap (i + 1)) markers
        ((i : Int) - ((windowSpec lines cap (i + 1)).length : Int) + 1) with
    | some r => simp
    | none =>
      have hrest : lines.drop (i + 1) = rest := drop_succ_of_drop_cons hdrop
      have hcast : (i : Int) + 1 = ((i + 1 : Nat) : Int) := by push_cast; ring
      rw [hcast, ← hrest]
      exact ih (i + 1) (by omega) (by omega) acc

theorem slidingMulti_sound (markers lines : List Line) (cap : Nat) (hcap : 1 ≤ cap) :
    ∀ (ws : List Line) (i : Nat) (r : Int × Int),
      ws = lines.drop i →
      slidingMulti markers cap true ws (i : Int) (windowSpec lines cap i) none = some r →
      ∃ k, i ≤ k ∧ k < lines.length ∧
        findStartMarkerInWindow (windowSpec lines cap (k + 1)) markers
          ((k : Int) - ((windowSpec lines cap (k + 1)).length : Int) + 1) = some r := by
  intro ws
  induction ws with
  | nil =>
    intro i r h1 h3
    cases h3
  | cons l rest ih =>
    intro i r h1 h3
    have hlt : i < lines.length := drop_len_lt h1.symm
    have hl : l = lines.getD i [] := (getD_of_drop_cons h1.symm).symm
    rw [slidingMulti_cons] at h3
    have hw2 : (if (windowSpec lines cap i ++ [l]).length > cap
        then (windowSpec lines cap i ++ [l]).drop 1
        else windowSpec lines cap i ++ [l]) = windowSpec lines cap (i + 1) := by
      rw [hl]
      exact windowSpec_step lines cap hcap i hlt
    rw [hw2] at h3
    cases hf : findStartMarkerInWindow (windowSpec lines cap (i + 1)) markers
        ((i : Int) - ((windowSpec lines cap (i + 1)).length : Int) + 1) with
    | some r0 =>
      rw [hf] at h3
      have h4 : some r0 = some r := h3
      refine ⟨i, le_refl i, hlt, ?_⟩
      rw [hf]
      exact h4
    | none =>
      rw [hf] at h3
      have hrest : lines.drop (i + 1) = rest := drop_succ_of_drop_cons h1.symm
      have hcast : (i : Int) + 1 = ((i + 1 : Nat) : Int) := by push_cast; ring
      rw [hcast] at h3
      obtain ⟨k, hk1, hk2, hk3⟩ := ih (i + 1) r hrest.symm h3
      exact ⟨k, by omega, hk2, hk3⟩

theorem getLastD_cons_cons {α : Type} (k a : α) (t : List α) (d1 d2 : α) :
    (k :: a :: t).getLastD d1 = (a :: t).getLastD d2 := by
  simp only [List.getLastD_cons]

theorem getLastD_map (f : Nat → Nat) :
    ∀ (ks : List Nat) (d : Nat), (ks.map f).getLastD (f d) = f (ks.getLastD d) := by
  intro ks
  induction ks with
  | nil => intro d; rfl
  | cons a t ih =>
    intro d
    simp only [List.map_cons, List.getLastD_cons]
    exact ih a

theorem chainFrom_le_last (lines : List Line) :
    ∀ (ks : List Nat) (ms : List Line) (p : Nat),
      chainFrom lines p ms ks = true →
      (∀ k ∈ ks, p ≤ k ∧ k < lines.length) ∧ (∀ k ∈ ks, k ≤ ks.getLastD 0) := by
  intro ks
  induction ks with
  | nil =>
    intro ms p _
    exact ⟨fun k hk => absurd hk (List.not_mem_nil k), fun k hk => absurd hk (List.not_mem_nil k)⟩
  | cons k0 kt ih =>
    intro ms p h
    cases ms with
    | nil => cases h
    | cons m mt =>
      simp only [chainFrom, Bool.and_eq_true, decide_eq_true_eq] at h
      obtain ⟨⟨⟨⟨hpk, hklen⟩, _⟩, _⟩, hrest⟩ := h
      obtain ⟨ih1, ih2⟩ := ih mt (k0 + 1) hrest
      constructor
      · intro k hk
        rcases List.mem_cons.mp hk with hk | hk
        · subst hk
          exact ⟨hpk, hklen⟩
        · obtain ⟨h1, h2⟩ := ih1 k hk
          exact ⟨by omega, h2⟩
      · intro k hk
        cases kt with
        | nil =>
          rcases List.mem_cons.mp hk with hk | hk
          · subst hk
            exact le_refl _
          · exact absurd hk (List.not_mem_nil k)
        | cons a t =>
          rw [getLastD_cons_cons k0 a t 0 0]
          rcases List.mem_cons.mp hk with hk | hk
          · subst hk
            have ha := (ih1 a (List.mem_cons_self a t)).1
            have hb := ih2 a (List.mem_cons_self a t)
            omega
          · exact ih2 k hk

theorem gapRun_restrict (lines : List Line) (cap K : Nat) (hK : K < lines.length)
    (m : Line) :
    ∀ (d p : Nat), w0cap cap (K + 1) ≤ p → p + d ≤ K + 1 →
      gapRun lines m p d = true →
      gapRun (windowSpec lines cap (K + 1)) m (p - w0cap cap (K + 1)) d = true := by
  intro d
  induction d with
  | zero => intro p _ _ _; rfl
  | succ n ih =>
    intro p h1 h2 h3
    unfold gapRun at h3 ⊢
    simp only [Bool.and_eq_true] at h3
    obtain ⟨⟨hskip, hnc⟩, hrun⟩ := h3
    have hg : (windowSpec lines cap (K + 1)).getD (p - w0cap cap (K + 1)) [] =
        lines.getD p [] :=
      windowSpec_getD lines cap (K + 1) p (by omega) h1 (by omega)
    rw [hg, hskip, hnc]
    have hnext := ih (p + 1) (by omega) (by omega) hrun
    have he : p + 1 - w0cap cap (K + 1) = (p - w0cap cap (K + 1)) + 1 := by omega
    rw [he] at hnext
    rw [hnext]
    rfl

theorem chainFrom_restrict (lines : List Line) (cap K : Nat) (hcap : 1 ≤ cap)
    (hK : K < lines.length) :
    ∀ (ms : List Line) (ks : List Nat) (p : Nat),
      w0cap cap (K + 1) ≤ p → (∀ k ∈ ks, k ≤ K) →
      chainFrom lines p ms ks = true →
      chainFrom (windowSpec lines cap (K + 1)) (p - w0cap cap (K + 1)) ms
        (ks.map (fun k => k - w0cap cap (K + 1))) = true := by
  intro ms
  induction ms with
  | nil =>
    intro ks p _ _ h
    cases ks with
    | nil => rfl
    | cons k kt => cases h
  | cons m mt ih =>
    intro ks p h1 h2 h3
    cases ks with
    | nil => cases h3
    | cons k kt =>
      simp only [chainFrom, Bool.and_eq_true, decide_eq_true_eq] at h3
      obtain ⟨⟨⟨⟨hpk, hklen⟩, hcont⟩, hgap⟩, hrest⟩ := h3
      have hkK : k ≤ K := h2 k (List.mem_cons_self k kt)
      have hw : w0cap cap (K + 1) = (K + 1) - min (K + 1) cap := rfl
      have hwlen := windowSpec_length lines cap (K + 1) (by omega)
      simp only [List.map_cons, chainFrom, Bool.and_eq_true, decide_eq_true_eq]
      refine ⟨⟨⟨⟨by omega, by rw [hwlen]; omega⟩, ?_⟩, ?_⟩, ?_⟩
      · rw [windowSpec_getD lines cap (K + 1) k (by omega) (by omega) (by omega)]
        exact hcont
      · unfold gapOK at hgap ⊢
        have he : k - w0cap cap (K + 1) - (p - w0cap cap (K + 1)) = k - p := by omega
        rw [he]
        exact gapRun_restrict lines cap K hK m (k - p) p h1 (by omega) hgap
      · have := ih kt (k + 1) (by omega)
          (fun x hx => h2 x (List.mem_cons_of_mem k hx)) hrest
        have he : k + 1 - w0cap cap (K + 1) = (k - w0cap cap (K + 1)) + 1 := by omega
        rw [he] at this
        exact this

theorem gapRun_lift (lines : List Line) (cap K : Nat) (hK : K < lines.length)
    (hcap : 1 ≤ cap) (m : Line) :
    ∀ (d q : Nat), q + d ≤ (windowSpec lines cap (K + 1)).length →
      gapRun (windowSpec lines cap (K + 1)) m q d = true →
      gapRun lines m (q + w0cap cap (K + 1)) d = true := by
  intro d
  induction d with
  | zero => intro q _ _; rfl
  | succ n ih =>
    intro q h1 h2
    unfold gapRun at h2 ⊢
    simp only [Bool.and_eq_true] at h2
    obtain ⟨⟨hskip, hnc⟩, hrun⟩ := h2
    have hg := windowSpec_getD2 lines cap K hK hcap q (by omega)
    rw [← hg, hskip, hnc]
    have hnext := ih (q + 1) (by omega) hrun
    have he : q + 1 + w0cap cap (K + 1) = (q + w0cap cap (K + 1)) + 1 := by omega
    rw [he] at hnext
    rw [hnext]
    rfl

theorem chainFrom_lift (lines : List Line) (cap K : Nat) (hK : K < lines.length)
    (hcap : 1 ≤ cap) :
    ∀ (ms : List Line) (ks : List Nat) (q : Nat),
      chainFrom (windowSpec lines cap (K + 1)) q ms ks = true →
      chainFrom lines (q + w0cap cap (K + 1)) ms
        (ks.map (fun k => k + w0cap cap (K + 1))) = true := by
  intro ms
  induction ms with
  | nil =>
    intro ks q h
    cases ks with
    | nil => rfl
    | cons k kt => cases h
  | cons m mt ih =>
    intro ks q h
    cases ks with
    | nil => cases h
    | cons k kt =>
      simp only [chainFrom, Bool.and_eq_true, decide_eq_true_eq] at h
      obtain ⟨⟨⟨⟨hqk, hklen⟩, hcont⟩, hgap⟩, hrest⟩ := h
      have hw : w0cap cap (K + 1) = (K + 1) - min (K + 1) cap := rfl
      have hwlen := windowSpec_length lines cap (K + 1) (by omega)
      rw [hwlen] at hklen
      simp only [List.map_cons, chainFrom, Bool.and_eq_true, decide_eq_true_eq]
      refine ⟨⟨⟨⟨by omega, by omega⟩, ?_⟩, ?_⟩, ?_⟩
      · rw [← windowSpec_getD2 lines cap K hK hcap k (by rw [hwlen]; omega)]
        exact hcont
      · unfold gapOK at hgap ⊢
        have he : k + w0cap cap (K + 1) - (q + w0cap cap (K + 1)) = k - q := by omega
        rw [he]
        exact gapRun_lift lines cap K hK hcap m (k - q) q (by rw [hwlen]; omega) hgap
      · have := ih kt (k + 1) hrest
        have he : k + 1 + w0cap cap (K + 1) = (k + w0cap cap (K + 1)) + 1 := by omega
        rw [he] at this
        exact this

theorem chainFrom_tighten (lines : List Line) (p k : Nat) (m : Line) (ms : List Line)
    (ks : List Nat) (h : chainFrom lines p (m :: ms) (k :: ks) = true) :
    chainFrom lines k (m :: ms) (k :: ks) = true := by
  simp only [chainFrom, Bool.and_eq_true, decide_eq_true_eq] at h ⊢
  obtain ⟨⟨⟨⟨hpk, hklen⟩, hcont⟩, hgap⟩, hrest⟩ := h
  refine ⟨⟨⟨⟨le_refl k, hklen⟩, hcont⟩, ?_⟩, hrest⟩
  unfold gapOK
  rw [Nat.sub_self]
  rfl

theorem slice_full (lines : List Line) :
    (lines.drop ((0 : Int)).toNat).take ((((lines.length : Int) - 1) - 0 + 1).toNat) =
      lines := by
  have h1 : (((lines.length : Int) - 1) - 0 + 1) = (lines.length : Int) := by ring
  rw [h1, Int.toNat_natCast]
  show (lines.drop 0).take lines.length = lines
  rw [List.drop_zero, List.take_length]

theorem FindFirstMarkerFromStart_eq (lines markers : List Line)
    (hm : 2 ≤ markers.length) :
    FindFirstMarkerFromStart lines markers =
      match slidingMulti markers (markers.length + 10) true lines 0 [] none with
      | some r => Except.ok r
      | none => Except.error StratError.markerNotFound := by
  have hne : ¬ markers = [] := by
    intro h
    rw [h] at hm
    simp at hm
  have hl1 : ¬ markers.length = 1 := by omega
  simp only [FindFirstMarkerFromStart, findMarkerWithSlidingWindow, if_neg hne,
    if_neg hl1, slice_full]

theorem tryMatchMultilineStart_eq (window markers : List Line) (s : Nat) (ws : Int) :
    tryMatchMultilineStart window markers s ws =
      tryMatchLoop ws (window.drop s) markers s (-1) (-1) := rfl

theorem windowSpec_zero (lines : List Line) (cap : Nat) :
    windowSpec lines cap 0 = [] := by
  unfold windowSpec
  rw [List.take_zero, List.drop_nil]

theorem getLastD_mem {α : Type} :
    ∀ (t : List α) (a d : α), (a :: t).getLastD d ∈ a :: t := by
  intro t
  induction t with
  | nil =>
    intro a d
    rw [List.getLastD_cons]
    simp [List.getLastD]
  | cons b t ih =>
    intro a d
    rw [List.getLastD_cons]
    exact List.mem_cons_of_mem a (ih b a)

theorem FindFirstMarkerFromStart_success (lines markers : List Line)
    (hm : 2 ≤ markers.length) (ks : List Nat)
    (hchain : chainWitness lines markers ks = true)
    (hspan : ks.getLastD 0 + 1 ≤ ks.headD 0 + markers.length + 10) :
    ∃ r, FindFirstMarkerFromStart lines markers = Except.ok r := by
  have hcap : 1 ≤ markers.length + 10 := by omega
  cases ks with
  | nil => cases hchain
  | cons k0 kt =>
    unfold chainWitness at hchain
    have hK := chainFrom_le_last lines (k0 :: kt) markers k0 hchain
    have hk0K : k0 ≤ (k0 :: kt).getLastD 0 :=
      hK.2 k0 (List.mem_cons_self k0 kt)
    have hKlen : (k0 :: kt).getLastD 0 < lines.length :=
      (hK.1 _ (getLastD_mem kt k0 0)).2
    have hhead : (k0 :: kt).headD 0 = k0 := rfl
    rw [hhead] at hspan
    set K := (k0 :: kt).getLastD 0 with hKdef
    set cap := markers.length + 10 with hcapdef
    have hw : w0cap cap (K + 1) = (K + 1) - min (K + 1) cap := rfl
    have hw0le : w0cap cap (K + 1) ≤ k0 := by
      rw [hw]
      omega
    have hrestrict := chainFrom_restrict lines cap K hcap hKlen markers (k0 :: kt) k0
      hw0le (fun k hk => by rw [hKdef]; exact hK.2 k hk) hchain
    have hwlen := windowSpec_length lines cap (K + 1) (by omega)
    have html := tryMatchLoop_complete
      ((K : Int) - ((windowSpec lines cap (K + 1)).length : Int) + 1)
      (windowSpec lines cap (K + 1))
      ((windowSpec lines cap (K + 1)).length - (k0 - w0cap cap (K + 1)))
      (k0 - w0cap cap (K + 1)) markers
      ((k0 :: kt).map (fun k => k - w0cap cap (K + 1))) (-1) (-1) rfl hrestrict
    rw [← tryMatchMultilineStart_eq] at html
    have hms := multiScan_complete (windowSpec lines cap (K + 1)) markers
      ((K : Int) - ((windowSpec lines cap (K + 1)).length : Int) + 1)
      (windowSpec lines cap (K + 1)).length 0 (k0 - w0cap cap (K + 1)) (by omega)
      (by rw [hwlen]; omega) html
    rw [← findStartMarkerInWindow_multi _ _ _ hm] at hms
    have hreach := slidingMulti_reaches markers lines cap hcap K hKlen hms K 0 rfl
      (by omega) none
    rw [List.drop_zero, windowSpec_zero, Nat.cast_zero] at hreach
    obtain ⟨r, hr⟩ := Option.isSome_iff_exists.mp hreach
    refine ⟨r, ?_⟩
    rw [FindFirstMarkerFromStart_eq lines markers hm, hr]

theorem getLastD_default_irrel {α : Type} (a : α) (l : List α) (d1 d2 : α) :
    (a :: l).getLastD d1 = (a :: l).getLastD d2 := by
  rw [List.getLastD_cons, List.getLastD_cons]

theorem FindFirstMarkerFromStart_sound (lines markers : List Line)
    (hm : 2 ≤ markers.length) (b e : Int)
    (h : FindFirstMarkerFromStart lines markers = Except.ok (b, e)) :
    ∃ ks : List Nat, chainWitness lines markers ks = true ∧
      b = ((ks.headD 0 : Nat) : Int) ∧ e = ((ks.getLastD 0 : Nat) : Int) := by
  rw [FindFirstMarkerFromStart_eq lines markers hm] at h
  set cap := markers.length + 10 with hcapdef
  have hcap : 1 ≤ cap := by omega
  cases hres : slidingMulti markers cap true lines 0 [] none with
  | none => rw [hres] at h; cases h
  | some r =>
    rw [hres] at h
    have hr : r = (b, e) := by
      injection h
    subst hr
    have h0 : slidingMulti markers cap true (lines.drop 0) ((0 : Nat) : Int)
        (windowSpec lines cap 0) none = some (b, e) := by
      rw [List.drop_zero, windowSpec_zero, Nat.cast_zero]
      exact hres
    obtain ⟨k, hk1, hk2, hfind⟩ :=
      slidingMulti_sound markers lines cap hcap (lines.drop 0) 0 (b, e) rfl h0
    rw [findStartMarkerInWindow_multi _ _ _ hm] at hfind
    obtain ⟨s, hs⟩ := multiScan_sound (windowSpec lines cap (k + 1)) markers
      ((k : Int) - ((windowSpec lines cap (k + 1)).length : Int) + 1)
      (windowSpec lines cap (k + 1)).length 0 (b, e) hfind
    rw [tryMatchMultilineStart_eq] at hs
    have hwlen := windowSpec_length lines cap (k + 1) (by omega)
    have hws : 0 ≤ (k : Int) - ((windowSpec lines cap (k + 1)).length : Int) + 1 := by
      rw [hwlen]
      have hle : min (k + 1) cap ≤ k + 1 := min_le_left _ _
      omega
    rcases tryMatchLoop_sound _ hws (windowSpec lines cap (k + 1))
        ((windowSpec lines cap (k + 1)).drop s) markers s (-1) (-1) b e rfl hs with
      ⟨hms, _, _⟩ | ⟨ks', hne, hchain, hb, he⟩
    · rw [hms] at hm
      simp at hm
    · cases ks' with
      | nil => exact absurd rfl hne
      | cons q0 qt =>
        cases markers with
        | nil => simp at hm
        | cons m0 mt =>
          have hlift := chainFrom_lift lines cap k hk2 hcap (m0 :: mt) (q0 :: qt) s hchain
          rw [List.map_cons] at hlift
          have htight := chainFrom_tighten lines (s + w0cap cap (k + 1))
            (q0 + w0cap cap (k + 1)) m0 mt (qt.map (fun x => x + w0cap cap (k + 1))) hlift
          have hw : w0cap cap (k + 1) = (k + 1) - min (k + 1) cap := rfl
          have hlast : ((q0 + w0cap cap (k + 1)) ::
              qt.map (fun x => x + w0cap cap (k + 1))).getLastD 0 =
              (q0 :: qt).getLastD 0 + w0cap cap (k + 1) := by
            have h1 : ((q0 + w0cap cap (k + 1)) ::
                qt.map (fun x => x + w0cap cap (k + 1))).getLastD 0 =
                ((q0 :: qt).map (fun x => x + w0cap cap (k + 1))).getLastD
                  (0 + w0cap cap (k + 1)) := by
              rw [List.map_cons]
              exact getLastD_default_irrel _ _ _ _
            rw [h1, getLastD_map (fun x => x + w0cap cap (k + 1)) (q0 :: qt) 0]
          refine ⟨(q0 + w0cap cap (k + 1)) :: qt.map (fun x => x + w0cap cap (k + 1)),
            ?_, ?_, ?_⟩
          · unfold chainWitness
            exact htight
          · rw [hb, if_pos rfl]
            have hhd : (q0 :: qt).headD 0 = q0 := rfl
            rw [hhd, hwlen]
            show (k : Int) - ((min (k + 1) cap : Nat) : Int) + 1 + ((q0 : Nat) : Int) =
              ((q0 + w0cap cap (k + 1) : Nat) : Int)
            rw [hw]
            omega
          · rw [he]
            have hgl : ((q0 :: qt).getLastD 0 : Nat) = (q0 :: qt).getLastD 0 := rfl
            rw [hlast, hwlen, hw]
            omega

/-- C5: After amendment. A multi-entry marker sequence is found by
`FindFirstMarkerFromStart` whenever the entries appear in order at positions
`ks` with only interleaved skippable lines that do not contain the pending
entry (`chainWitness`), PROVIDED the match spans at most
`markers.length + 10` lines (the sliding-window capacity of
common.go `findMarkerWithSlidingWindow`); the returned pair is the
first/last matched file-line index of such an interleaved match.  The
original claim (any number of interleaved skippable lines) is refuted by
the window cap: see the counterexample. -/
theorem claim_C5_interleaved_window_amended (lines markers : List Line)
    (hm : 2 ≤ markers.length) :
    (∀ ks : List Nat, chainWitness lines markers ks = true →
      ks.getLastD 0 + 1 ≤ ks.headD 0 + markers.length + 10 →
      ∃ r, FindFirstMarkerFromStart lines markers = Except.ok r) ∧
    (∀ b e : Int, FindFirstMarkerFromStart lines markers = Except.ok (b, e) →
      ∃ ks : List Nat, chainWitness lines markers ks = true ∧
        b = ((ks.headD 0 : Nat) : Int) ∧ e = ((ks.getLastD 0 : Nat) : Int)) :=
  ⟨fun ks h1 h2 => FindFirstMarkerFromStart_success lines markers hm ks h1 h2,
   fun b e h => FindFirstMarkerFromStart_sound lines markers hm b e h⟩

def c5Markers : List Line := ["A".data, "B".data]

def c5BadLines : List Line :=
  ["A".data, "; 1".data, "; 2".data, "; 3".data, "; 4".data, "; 5".data, "; 6".data,
   "; 7".data, "; 8".data, "; 9".data, "; 10".data, "; 11".data, "B".data]

/-- C5 counterexample to the frozen claim: the markers `A`, `B` appear in
order with eleven interleaved comment lines (`chainWitness` holds at
positions 0 and 12), yet the search fails with `markerNotFound`, because the
thirteen-line match exceeds the sliding-window capacity
`markers.length + 10 = 12`. -/
theorem claim_C5_interleaved_window_counterexample :
    chainWitness c5BadLines c5Markers [0, 12] = true ∧
    FindFirstMarkerFromStart c5BadLines c5Markers =
      Except.error StratError.markerNotFound := by
  decide

def c5Lines : List Line := ["A here".data, "; pad".data, "B here".data]

theorem claim_C5_interleaved_window_amended_witness :
    (∃ r, FindFirstMarkerFromStart c5Lines c5Markers = Except.ok r) ∧
    (∃ ks : List Nat, chainWitness c5Lines c5Markers ks = true ∧
      (0 : Int) = ((ks.headD 0 : Nat) : Int) ∧
      (2 : Int) = ((ks.getLastD 0 : Nat) : Int)) :=
  ⟨(claim_C5_interleaved_window_amended c5Lines c5Markers (by decide)).1
      [0, 2] (by decide) (by decide),
   (claim_C5_interleaved_window_amended c5Lines c5Markers (by decide)).2
      0 2 (by decide)⟩
